import Mathlib

/-!
# Acoustic Complexity Index: a verification development for `acousticComplexityIndex.c`

The C program reads a 44-byte WAV header, fills a matrix of FFT magnitude
spectra block by block, and reduces the matrix to the ACI value.

Modelling conventions
* bytes are `Fin 256`; `uint32_t`/`unsigned int` values are `Nat` with an
  explicit `% 2 ^ 32` where the C arithmetic can wrap, `size_t` wraps at `2 ^ 64`;
* the host is little-endian (the header struct is overlaid on the raw bytes);
* `float` arithmetic is a parameter (`FloatOps`), so every statement proved for an
  arbitrary `FloatOps` holds for IEEE single precision as well;
* memory that the program never initialises (the rows returned by `malloc`, the
  stack array `samples`) is an explicit input of the model;
* functions that return an `int` status return it as `rc : Int`.
-/

namespace ACI

/-! ## Constants and machine arithmetic -/

/-- Transform size, the C constant `FFT_N` (1024). -/
def FFT_N : Nat := 1024

/-- Temporal step in seconds, the C constant `TEMPORAL_STEP` (5). -/
def TEMPORAL_STEP : Nat := 5

/-- Modulus of `unsigned int` and `uint32_t` arithmetic. -/
def UINT_MOD : Nat := 2 ^ 32

/-- Modulus of `size_t` arithmetic. -/
def SIZE_MOD : Nat := 2 ^ 64

/-- Value of `sizeof(WavHeader)`: 4+4+4+4+4+2+2+4+4+2+2+4+4 bytes, no padding. -/
def sizeofWavHeader : Nat := 44

/-- Number of magnitudes per row, `FFT_N / 2 + 1`. -/
def NUM_BINS : Nat := FFT_N / 2 + 1

/-- One byte of a file or of memory. -/
abbrev Byte := Fin 256

/-- Conversion of an unsigned value to `int` (32-bit two's complement). -/
def toInt32 (n : Nat) : Int :=
  if n % UINT_MOD < 2 ^ 31 then ((n % UINT_MOD : Nat) : Int)
  else ((n % UINT_MOD : Nat) : Int) - (UINT_MOD : Int)

/-- Conversion of an `int` to `size_t`. -/
def toSizeT (i : Int) : Nat := (i % (SIZE_MOD : Int)).toNat

/-! ## The WAV header -/

/-- The C struct `WavHeader`; `char[4]` fields are byte lists. -/
structure WavHeader where
  chunkId : List Byte
  chunkSize : Nat
  format : List Byte
  subchunk1Id : List Byte
  subchunk1Size : Nat
  audioFormat : Nat
  numChannels : Nat
  sampleRate : Nat
  byteRate : Nat
  blockAlign : Nat
  bitsPerSample : Nat
  subchunk2Id : List Byte
  subchunk2Size : Nat
  deriving DecidableEq, Repr

/-- Every field of the header fits its C type. -/
def WavHeader.wf (h : WavHeader) : Prop :=
  h.chunkId.length = 4 ∧ h.format.length = 4 ∧ h.subchunk1Id.length = 4 ∧
  h.subchunk2Id.length = 4 ∧
  h.chunkSize < 2 ^ 32 ∧ h.subchunk1Size < 2 ^ 32 ∧ h.audioFormat < 2 ^ 16 ∧
  h.numChannels < 2 ^ 16 ∧ h.sampleRate < 2 ^ 32 ∧ h.byteRate < 2 ^ 32 ∧
  h.blockAlign < 2 ^ 16 ∧ h.bitsPerSample < 2 ^ 16 ∧ h.subchunk2Size < 2 ^ 32

instance (h : WavHeader) : Decidable h.wf := by
  unfold WavHeader.wf; infer_instance

/-- Byte `i` of a buffer as a number (0 past the end). -/
def byteAt (b : List Byte) (i : Nat) : Nat := (b.getD i 0).val

/-- A `uint16_t` stored little-endian at offset `off`. -/
def le16 (b : List Byte) (off : Nat) : Nat :=
  byteAt b off + 256 * byteAt b (off + 1)

/-- A `uint32_t` stored little-endian at offset `off`. -/
def le32 (b : List Byte) (off : Nat) : Nat :=
  byteAt b off + 256 * byteAt b (off + 1) + 65536 * byteAt b (off + 2)
    + 16777216 * byteAt b (off + 3)

/-- A `char[4]` field stored at offset `off`. -/
def tag4 (b : List Byte) (off : Nat) : List Byte := (b.drop off).take 4

/-- The struct as seen through the 44 bytes that `fread` stored into it. -/
def overlayWavHeader (b : List Byte) : WavHeader where
  chunkId := tag4 b 0
  chunkSize := le32 b 4
  format := tag4 b 8
  subchunk1Id := tag4 b 12
  subchunk1Size := le32 b 16
  audioFormat := le16 b 20
  numChannels := le16 b 22
  sampleRate := le32 b 24
  byteRate := le32 b 28
  blockAlign := le16 b 32
  bitsPerSample := le16 b 34
  subchunk2Id := tag4 b 36
  subchunk2Size := le32 b 40

/-- The string literal `"RIFF"` with its terminating NUL. -/
def RIFF : List Byte := [82, 73, 70, 70, 0]

/-- The C library `strncmp` on byte strings (the end of a list reads as NUL). -/
def strncmp : List Byte → List Byte → Nat → Int
  | _, _, 0 => 0
  | [], [], _ + 1 => 0
  | [], b :: _, _ + 1 => -(b.val : Int)
  | a :: _, [], _ + 1 => (a.val : Int)
  | a :: as, b :: bs, n + 1 =>
    if a ≠ b then (a.val : Int) - (b.val : Int)
    else if a.val = 0 then 0
    else strncmp as bs n

/-- The file system: the content of the file at a path, `none` when `fopen` fails. -/
abbrev FileSystem := String → Option (List Byte)

/-- The two file-scope variables set by `processCmdline`. -/
structure Globals where
  wavFilePath : String
  dumpWavHeader : Bool
  deriving DecidableEq, Repr

/-- What `fread(ptr, 1, len, fp)` delivers at file position `pos`. -/
def fread (file : List Byte) (pos len : Nat) : List Byte := (file.drop pos).take len

/-- Outcome of `obtainWavHeader`: the status, the struct when `fread` filled all of
it, and whether the header dump was printed. -/
structure HeaderResult where
  rc : Int
  wavHeader : Option WavHeader
  dumped : Bool
  deriving DecidableEq, Repr

/-- The C function `obtainWavHeader`. -/
def obtainWavHeader (fs : FileSystem) (g : Globals) : HeaderResult :=
  match fs g.wavFilePath with
  | none => { rc := -1, wavHeader := none, dumped := false }
  | some file =>
    let bytes := fread file 0 sizeofWavHeader
    if bytes.length ≠ sizeofWavHeader then
      { rc := -1, wavHeader := none, dumped := false }
    else if strncmp (overlayWavHeader bytes).chunkId RIFF 4 ≠ 0 then
      { rc := -1, wavHeader := some (overlayWavHeader bytes), dumped := false }
    else
      { rc := 0, wavHeader := some (overlayWavHeader bytes), dumped := g.dumpWavHeader }

/-- Little-endian bytes of a 16-bit value. -/
def encode16 (v : Nat) : List Byte := [Fin.ofNat v, Fin.ofNat (v / 256)]

/-- Little-endian bytes of a 32-bit value. -/
def encode32 (v : Nat) : List Byte :=
  [Fin.ofNat v, Fin.ofNat (v / 256), Fin.ofNat (v / 65536), Fin.ofNat (v / 16777216)]

/-- The canonical 44-byte little-endian PCM header of the external interface:
chunk marker, chunk size, format marker, the format sub-chunk, the data sub-chunk
header. -/
def encodeWavHeader (h : WavHeader) : List Byte :=
  h.chunkId ++ encode32 h.chunkSize ++ h.format ++ h.subchunk1Id
    ++ encode32 h.subchunk1Size ++ encode16 h.audioFormat ++ encode16 h.numChannels
    ++ encode32 h.sampleRate ++ encode32 h.byteRate ++ encode16 h.blockAlign
    ++ encode16 h.bitsPerSample ++ h.subchunk2Id ++ encode32 h.subchunk2Size

/-! ## Floating point and the external transform -/

/-- The operations on the C type `float` that the reducer uses. No law is assumed,
so IEEE single precision is one instance. -/
structure FloatOps (F : Type) where
  zero : F
  add : F → F → F
  sub : F → F → F
  div : F → F → F
  fabs : F → F

/-- What the spectral transformer uses besides `FloatOps`: the conversion of an
`int16_t` sample to `kiss_fft_scalar`, product and square root, the library routine
`kiss_fftr` (input: the 1024 scalars; output: bin `i` as a pair (r, i)), and the
value of a `float` after its first byte has been zeroed. -/
structure FftEnv (F : Type) extends FloatOps F where
  ofInt16 : Int → F
  mul : F → F → F
  sqrt : F → F
  kiss_fftr : List F → Nat → F × F
  clearFirstByte : F → F

/-! ## Reading samples and transforming a block -/

/-- Element `i` of an `int16_t` array laid over a byte buffer (little-endian,
two's complement). -/
def int16At (buf : Nat → Byte) (i : Nat) : Int :=
  if (buf (2 * i)).val + 256 * (buf (2 * i + 1)).val < 32768 then
    (((buf (2 * i)).val + 256 * (buf (2 * i + 1)).val : Nat) : Int)
  else (((buf (2 * i)).val + 256 * (buf (2 * i + 1)).val : Nat) : Int) - 65536

/-- The buffer after `fread` stored `data` at its start. -/
def storeBytes (buf : Nat → Byte) (data : List Byte) : Nat → Byte :=
  fun j => data.getD j (buf j)

/-- Outcome of `readSamples`: status, buffer contents, new file position. -/
structure ReadResult where
  rc : Int
  buffer : Nat → Byte
  pos : Nat

/-- The C function `readSamples(fp, buffer, len)`: one `fread` of `len` BYTES. -/
def readSamples (file : List Byte) (pos : Nat) (buffer : Nat → Byte) (len : Nat) :
    ReadResult :=
  { rc := if (fread file pos len).length ≠ len then -1 else 0
    buffer := storeBytes buffer (fread file pos len)
    pos := pos + (fread file pos len).length }

/-- The `FFT_N` elements `samples[0..1023]` that `obtainFftMagnitudeData` reads. -/
def samplesOf (samples : Nat → Byte) : List Int :=
  (List.range FFT_N).map (int16At samples)

/-- Magnitudes of the first `FFT_N / 2 + 1` output bins. -/
def magnitudesOf {F : Type} (env : FftEnv F) (fftOut : Nat → F × F) : List F :=
  (List.range NUM_BINS).map fun i =>
    env.sqrt (env.add (env.mul (fftOut i).1 (fftOut i).1) (env.mul (fftOut i).2 (fftOut i).2))

/-- The magnitude spectrum of a block of samples. -/
def spectrumOf {F : Type} (env : FftEnv F) (block : List Int) : List F :=
  magnitudesOf env (env.kiss_fftr (block.map env.ofInt16))

/-- The C function `obtainFftMagnitudeData(samples, magnitudes)`. `allocOk` tells
whether `kiss_fftr_alloc` returns a configuration. Returns the status and, on
success, the 513 magnitudes written. -/
def obtainFftMagnitudeData {F : Type} (env : FftEnv F) (allocOk : Bool)
    (samples : Nat → Byte) : Int × Option (List F) :=
  if allocOk = false then (-1, none)
  else (0, some (spectrumOf env (samplesOf samples)))

/-! ## The magnitude matrix -/

/-- The matrix as the program addresses it: `numRows` rows were allocated; `cell r c`
is what a load of `magnitudeMatrix[r][c]` yields. -/
structure Matrix (F : Type) where
  numRows : Nat
  cell : Nat → Nat → F

/-- What `malloc` hands out: whether the row table is obtained, and the
indeterminate contents of the fresh rows. The allocations of the single rows are
taken to succeed. -/
structure Heap (F : Type) where
  tableOk : Bool
  garbage : Nat → Nat → F

/-- The C function `createMagnitudeMatrix`; `none` is the `NULL` result. (A `NULL`
table with a positive row count makes the row loop store through `NULL`; that case
is the failure outcome here as well, and statements about whole runs leave it
out.) -/
def createMagnitudeMatrix {F : Type} (heap : Heap F) (wavHeader : WavHeader) :
    Option (Matrix F) :=
  if heap.tableOk then
    some { numRows := (wavHeader.subchunk2Size / FFT_N) % UINT_MOD, cell := heap.garbage }
  else none

/-- Effect of `memset(magnitudeMatrix[row], 0, FFT_N / 2 + 1)`: 513 BYTES, that is
128 whole floats and the first byte of the 129th. -/
def memsetRow {F : Type} (env : FftEnv F) (cell : Nat → Nat → F) (row : Nat) :
    Nat → Nat → F :=
  fun r c =>
    if r = row then
      if c < NUM_BINS / 4 then env.zero
      else if c = NUM_BINS / 4 then env.clearFirstByte (cell r c)
      else cell r c
    else cell r c

/-- Row `row` after the magnitude loop stored `vals` into it. -/
def setRow {F : Type} (cell : Nat → Nat → F) (row : Nat) (vals : List F) :
    Nat → Nat → F :=
  fun r c => if r = row then vals.getD c (cell r c) else cell r c

/-- State of the loop in `populateMagnitudeMatrix`. `calls` lists, in order, the row
and the 1024 samples of every call of `obtainFftMagnitudeData`. -/
structure PopState (F : Type) where
  numFfts : Nat
  pos : Nat
  samples : Nat → Byte
  cell : Nat → Nat → F
  rc : Int
  calls : List (Nat × List Int)

/-- The loop `while (numFfts++ < (subchunk2Size / FFT_N) - 1) { ... }`; the
subtraction is `unsigned`. One unit of fuel per evaluation of the condition.
`fftAlloc n` tells whether `kiss_fftr_alloc` succeeds in the call of the transform
that follows `n` earlier calls. -/
def populateLoop {F : Type} (env : FftEnv F) (fftAlloc : Nat → Bool) (wavHeader : WavHeader)
    (file : List Byte) :
    Nat → PopState F → PopState F
  | 0, s => s
  | fuel + 1, s =>
    if s.numFfts < (wavHeader.subchunk2Size / FFT_N + UINT_MOD - 1) % UINT_MOD then
      let row := (s.numFfts + 1) % UINT_MOD
      let cleared := memsetRow env s.cell row
      let r := readSamples file s.pos s.samples FFT_N
      if r.rc ≠ 0 then
        { numFfts := row, pos := r.pos, samples := r.buffer, cell := cleared, rc := -1,
          calls := s.calls }
      else
        let t := obtainFftMagnitudeData env (fftAlloc s.calls.length) r.buffer
        let calls := s.calls ++ [(row, samplesOf r.buffer)]
        if t.1 ≠ 0 then
          { numFfts := row, pos := r.pos, samples := r.buffer, cell := cleared, rc := -1,
            calls := calls }
        else
          populateLoop env fftAlloc wavHeader file fuel
            { numFfts := row, pos := r.pos, samples := r.buffer,
              cell := setRow cleared row (t.2.getD []), rc := s.rc, calls := calls }
    else { s with numFfts := (s.numFfts + 1) % UINT_MOD }

/-- Outcome of `populateMagnitudeMatrix`. -/
structure PopResult (F : Type) where
  rc : Int
  cell : Nat → Nat → F
  calls : List (Nat × List Int)

/-- The C function `populateMagnitudeMatrix`. `stack` is the indeterminate initial
content of the local array `samples`. The counter is below `2 ^ 32`, so `2 ^ 32`
units of fuel always reach the end of the loop. (`fseek` to offset 44 succeeds on
a regular file, also past its end; the `assert`s at the head of the C functions
are taken to hold.) -/
def populateMagnitudeMatrix {F : Type} (env : FftEnv F) (fftAlloc : Nat → Bool)
    (fs : FileSystem) (g : Globals) (stack : Nat → Byte) (wavHeader : WavHeader)
    (magnitudeMatrix : Matrix F) : PopResult F :=
  match fs g.wavFilePath with
  | none => { rc := -1, cell := magnitudeMatrix.cell, calls := [] }
  | some file =>
    let s := populateLoop env fftAlloc wavHeader file UINT_MOD
      { numFfts := 0, pos := sizeofWavHeader, samples := stack,
        cell := magnitudeMatrix.cell, rc := 0, calls := [] }
    { rc := s.rc, cell := s.cell, calls := s.calls }

/-! ## The reducer -/

/-- The local `numFftsInTemporalStep` of `obtainAciValue`: the product is computed
in `unsigned int`. -/
def numFftsInTemporalStep (wavHeader : WavHeader) : Nat :=
  (TEMPORAL_STEP * wavHeader.sampleRate) % UINT_MOD / FFT_N

/-- The local `numTemporalStepsInRecording` of `obtainAciValue`. -/
def numTemporalStepsInRecording (wavHeader : WavHeader) : Nat :=
  wavHeader.subchunk2Size / wavHeader.sampleRate / TEMPORAL_STEP

/-- The innermost loop of `obtainAciValue` for temporal step `m` and bin `q`: the
final values of `D` and `sum`. `startingFft` is an `int`; the bound
`numFftsInTemporalStep - 2` is `unsigned`. -/
def stepSums {F : Type} (ops : FloatOps F) (magnitudeMatrix : Nat → Nat → F)
    (wavHeader : WavHeader) (m q : Nat) : F × F :=
  let startingFft : Int := toInt32 (m * numFftsInTemporalStep wavHeader % SIZE_MOD)
  (List.range ((numFftsInTemporalStep wavHeader + UINT_MOD - 2) % UINT_MOD)).foldl
    (fun acc k =>
      let i0 := (toSizeT startingFft + k) % SIZE_MOD
      let i1 := (i0 + 1) % SIZE_MOD
      let dk := ops.fabs (ops.sub (magnitudeMatrix i0 q) (magnitudeMatrix i1 q))
      (ops.add acc.1 dk, ops.add acc.2 (magnitudeMatrix i0 q)))
    (ops.zero, ops.zero)

/-- The C function `obtainAciValue`; `none` when the integer division by
`sampleRate = 0` traps. The matrix is a total function, so a load outside the
allocated rows yields a value here, where the program has no defined behaviour;
`cellReads` lists the cells loaded, and statements about whole runs are restricted
to headers whose loads stay inside the allocated rows. -/
def obtainAciValue {F : Type} (ops : FloatOps F) (magnitudeMatrix : Nat → Nat → F)
    (wavHeader : WavHeader) : Option F :=
  if wavHeader.sampleRate = 0 then none
  else
    some ((List.range NUM_BINS).foldl
      (fun aciTotal q =>
        ops.add aciTotal
          ((List.range (numTemporalStepsInRecording wavHeader)).foldl
            (fun aciTempStep m =>
              ops.add aciTempStep
                (ops.div (stepSums ops magnitudeMatrix wavHeader m q).1
                  (stepSums ops magnitudeMatrix wavHeader m q).2))
            ops.zero))
      ops.zero)

/-! ## The command line and `main` -/

/-- One result of `getopt(argc, argv, "f:dh")`. -/
inductive CmdOpt where
  | f (optarg : String)
  | d
  | h
  | other
  deriving DecidableEq, Repr

/-- The C function `processCmdline`, over the sequence of options `getopt` yields.
`strncpy` keeps at most 128 characters of the path. -/
def processCmdline (opts : List CmdOpt) : Int × Globals :=
  opts.foldl
    (fun acc o =>
      match o with
      | CmdOpt.f optarg => (0, { acc.2 with wavFilePath := optarg.take 128 })
      | CmdOpt.d => (acc.1, { acc.2 with dumpWavHeader := true })
      | CmdOpt.h => acc
      | CmdOpt.other => acc)
    (-1, { wavFilePath := "", dumpWavHeader := false })

/-- The functions `main` calls after `processCmdline`. -/
inductive Stage where
  | obtainWavHeader
  | createMagnitudeMatrix
  | populateMagnitudeMatrix
  | obtainAciValue
  | destroyMagnitudeMatrix
  deriving DecidableEq, Repr

/-- What a run of `main` does: the exit status (`none` when the process is killed by
the division trap in `obtainAciValue`), the functions called in order, the number of
calls of the spectral transformer, and the ACI value of the line printed on stdout. -/
structure MainResult (F : Type) where
  exit : Option Int
  stages : List Stage
  fftCalls : Nat
  aciLine : Option F

/-- The C function `main`. -/
def main {F : Type} (env : FftEnv F) (fftAlloc : Nat → Bool) (heap : Heap F)
    (stack : Nat → Byte) (fs : FileSystem) (opts : List CmdOpt) : MainResult F :=
  if (processCmdline opts).1 ≠ 0 then
    { exit := some (-1), stages := [], fftCalls := 0, aciLine := none }
  else
    let g := (processCmdline opts).2
    match (obtainWavHeader fs g).rc, (obtainWavHeader fs g).wavHeader with
    | 0, some wavHeader =>
      match createMagnitudeMatrix heap wavHeader with
      | none =>
        { exit := some (-1), stages := [Stage.obtainWavHeader, Stage.createMagnitudeMatrix],
          fftCalls := 0, aciLine := none }
      | some magnitudeMatrix =>
        let p := populateMagnitudeMatrix env fftAlloc fs g stack wavHeader magnitudeMatrix
        if p.rc ≠ 0 then
          { exit := some (-1),
            stages := [Stage.obtainWavHeader, Stage.createMagnitudeMatrix,
              Stage.populateMagnitudeMatrix, Stage.destroyMagnitudeMatrix],
            fftCalls := p.calls.length, aciLine := none }
        else
          match obtainAciValue env.toFloatOps p.cell wavHeader with
          | none =>
            { exit := none,
              stages := [Stage.obtainWavHeader, Stage.createMagnitudeMatrix,
                Stage.populateMagnitudeMatrix, Stage.obtainAciValue],
              fftCalls := p.calls.length, aciLine := none }
          | some ACI =>
            { exit := some 0,
              stages := [Stage.obtainWavHeader, Stage.createMagnitudeMatrix,
                Stage.populateMagnitudeMatrix, Stage.obtainAciValue,
                Stage.destroyMagnitudeMatrix],
              fftCalls := p.calls.length, aciLine := some ACI }
    | _, _ =>
      { exit := some (-1), stages := [Stage.obtainWavHeader], fftCalls := 0,
        aciLine := none }

/-! ## The contract of the reducer, in the words of the specification -/

/-- The sum `f 0 + f 1 + ... + f (n - 1)`, accumulated in index order from zero. -/
def sumOver {F : Type} (ops : FloatOps F) (n : Nat) (f : Nat → F) : F :=
  (List.range n).foldl (fun acc i => ops.add acc (f i)) ops.zero

/-- The quantity `D = Σ |matrix[start+k][q] − matrix[start+k+1][q]|` for `k` in
`[0, B − 2)`, `start = m * B`. -/
def specD {F : Type} (ops : FloatOps F) (matrix : Nat → Nat → F) (B m q : Nat) : F :=
  sumOver ops (B - 2) fun k =>
    ops.fabs (ops.sub (matrix (m * B + k) q) (matrix (m * B + k + 1) q))

/-- The quantity `S = Σ matrix[start+k][q]` for `k` in `[0, B − 2)`, `start = m * B`. -/
def specS {F : Type} (ops : FloatOps F) (matrix : Nat → Nat → F) (B m q : Nat) : F :=
  sumOver ops (B - 2) fun k => matrix (m * B + k) q

/-- The ACI of the specification: the sum over every bin `q` in `[0, 512]` and every
temporal step `m` in `[0, N)` of `D / S`, without normalisation. -/
def specAci {F : Type} (ops : FloatOps F) (matrix : Nat → Nat → F) (B N : Nat) : F :=
  sumOver ops NUM_BINS fun q =>
    sumOver ops N fun m => ops.div (specD ops matrix B m q) (specS ops matrix B m q)

/-! ## An idealised `float` with the IEEE special values -/

/-- Idealised `float`: exact rational arithmetic on finite values (no rounding, no
overflow, one zero) and the IEEE 754 rules for the infinities and NaN. -/
inductive Flt where
  | fin (q : ℚ)
  | pinf
  | ninf
  | nan
  deriving DecidableEq

/-- IEEE addition. -/
def Flt.add : Flt → Flt → Flt
  | Flt.fin a, Flt.fin b => Flt.fin (a + b)
  | Flt.nan, _ => Flt.nan
  | _, Flt.nan => Flt.nan
  | Flt.pinf, Flt.ninf => Flt.nan
  | Flt.ninf, Flt.pinf => Flt.nan
  | Flt.pinf, _ => Flt.pinf
  | _, Flt.pinf => Flt.pinf
  | Flt.ninf, _ => Flt.ninf
  | _, Flt.ninf => Flt.ninf

/-- IEEE negation. -/
def Flt.neg : Flt → Flt
  | Flt.fin a => Flt.fin (-a)
  | Flt.pinf => Flt.ninf
  | Flt.ninf => Flt.pinf
  | Flt.nan => Flt.nan

/-- IEEE subtraction. -/
def Flt.sub (x y : Flt) : Flt := Flt.add x (Flt.neg y)

/-- IEEE absolute value. -/
def Flt.fabs : Flt → Flt
  | Flt.fin a => Flt.fin |a|
  | Flt.pinf => Flt.pinf
  | Flt.ninf => Flt.pinf
  | Flt.nan => Flt.nan

/-- IEEE division: `0/0` and `∞/∞` are NaN, a non-zero finite value over zero is an
infinity. -/
def Flt.div : Flt → Flt → Flt
  | Flt.fin a, Flt.fin b =>
    if b = 0 then (if a = 0 then Flt.nan else if 0 < a then Flt.pinf else Flt.ninf)
    else Flt.fin (a / b)
  | Flt.fin _, Flt.pinf => Flt.fin 0
  | Flt.fin _, Flt.ninf => Flt.fin 0
  | Flt.pinf, Flt.fin b => if 0 ≤ b then Flt.pinf else Flt.ninf
  | Flt.ninf, Flt.fin b => if 0 ≤ b then Flt.ninf else Flt.pinf
  | _, _ => Flt.nan

/-- The reducer's arithmetic over `Flt`. -/
def fltOps : FloatOps Flt where
  zero := Flt.fin 0
  add := Flt.add
  sub := Flt.sub
  div := Flt.div
  fabs := Flt.fabs

/-- A value that is neither an infinity nor NaN. -/
def Flt.isFinite : Flt → Bool
  | Flt.fin _ => true
  | _ => false

/-! ## Auxiliary descriptions of the builder's loop -/

/-- The loop bound `(subchunk2Size / FFT_N) - 1` in `unsigned int`. -/
def loopBound (wavHeader : WavHeader) : Nat :=
  (wavHeader.subchunk2Size / FFT_N + UINT_MOD - 1) % UINT_MOD

/-- The bytes of the `i`-th read of the loop: 1024 bytes from offset `44 + 1024 * i`. -/
def blockBytes (file : List Byte) (i : Nat) : List Byte :=
  fread file (sizeofWavHeader + FFT_N * i) FFT_N

/-- The array `samples` as the `i`-th call of the transform sees it. -/
def blockSamples (file : List Byte) (stack : Nat → Byte) (i : Nat) : List Int :=
  samplesOf (storeBytes stack (blockBytes file i))

/-- Sample `j` of the 16-bit sample stream that starts at byte 44 of the file. -/
def streamSample (file : List Byte) (j : Nat) : Int :=
  int16At (fun t => file.getD (sizeofWavHeader + t) 0) j

/-- The state after one more iteration in which the read and the transform succeed. -/
def popStep {F : Type} (env : FftEnv F) (file : List Byte) (s : PopState F) : PopState F :=
  { numFfts := s.numFfts + 1
    pos := s.pos + FFT_N
    samples := storeBytes s.samples (fread file s.pos FFT_N)
    cell := setRow (memsetRow env s.cell (s.numFfts + 1)) (s.numFfts + 1)
      (spectrumOf env (samplesOf (storeBytes s.samples (fread file s.pos FFT_N))))
    rc := s.rc
    calls := s.calls ++
      [(s.numFfts + 1, samplesOf (storeBytes s.samples (fread file s.pos FFT_N)))] }

/-- The matrix after `k` iterations in which read and transform succeed. -/
def cellAfter {F : Type} (env : FftEnv F) (file : List Byte) (stack : Nat → Byte)
    (cell : Nat → Nat → F) : Nat → Nat → Nat → F
  | 0 => cell
  | k + 1 =>
    setRow (memsetRow env (cellAfter env file stack cell k) (k + 1)) (k + 1)
      (spectrumOf env (blockSamples file stack k))

/-- The loop state after `k` iterations in which read and transform succeed. -/
def popAfter {F : Type} (env : FftEnv F) (file : List Byte) (stack : Nat → Byte)
    (cell : Nat → Nat → F) (k : Nat) : PopState F :=
  { numFfts := k
    pos := sizeofWavHeader + FFT_N * k
    samples := if k = 0 then stack else storeBytes stack (blockBytes file (k - 1))
    cell := cellAfter env file stack cell k
    rc := 0
    calls := (List.range k).map fun i => (i + 1, blockSamples file stack i) }

/-! ## Example inputs -/

/-- A canonical 16-bit mono PCM header with the given sample rate and data length. -/
def pcmHeader (sampleRate dataLength : Nat) : WavHeader where
  chunkId := [82, 73, 70, 70]
  chunkSize := 36 + dataLength
  format := [87, 65, 86, 69]
  subchunk1Id := [102, 109, 116, 32]
  subchunk1Size := 16
  audioFormat := 1
  numChannels := 1
  sampleRate := sampleRate
  byteRate := 2 * sampleRate
  blockAlign := 2
  bitsPerSample := 16
  subchunk2Id := [100, 97, 116, 97]
  subchunk2Size := dataLength

/-- A silent recording: the header followed by `dataLength` zero bytes. -/
def silentFile (sampleRate dataLength : Nat) : List Byte :=
  encodeWavHeader (pcmHeader sampleRate dataLength) ++ List.replicate dataLength 0

/-- A file system holding one file. -/
def oneFile (file : List Byte) : FileSystem := fun _ => some file

/-- The globals after `-f rec.wav`. -/
def recGlobals : Globals := { wavFilePath := "rec.wav", dumpWavHeader := false }

/-- The matrix whose every entry is zero. -/
def zeroMatrix : Nat → Nat → Flt := fun _ _ => Flt.fin 0

/-- A recording cut short: the header announces 4096 data bytes, 1500 follow. -/
def truncatedFile : List Byte :=
  encodeWavHeader (pcmHeader 8000 4096) ++ List.replicate 1500 0

/-- A recording longer than announced: the header announces 500 data bytes, 1500
follow. -/
def understatedFile : List Byte :=
  encodeWavHeader (pcmHeader 8000 500) ++ List.replicate 1500 0

/-- The matrix whose every entry is one. -/
def onesMatrix : Nat → Nat → Flt := fun _ _ => Flt.fin 1

/-! ## The stages of `main`, in the words of the specification -/

/-- The arithmetic in which a value is the list of matrix cells it was computed
from: every operation joins the lists of its operands. -/
def traceOps : FloatOps (List (Nat × Nat)) where
  zero := []
  add := fun x y => x ++ y
  sub := fun x y => x ++ y
  div := fun x y => x ++ y
  fabs := fun x => x

/-- The cells (row, column) of the matrix that `obtainAciValue` loads (a cell loaded
several times is listed several times): the reducer run on `traceOps` over the matrix
whose cell `(r, c)` is the one-element list `[(r, c)]`. -/
def cellReads (wavHeader : WavHeader) : Option (List (Nat × Nat)) :=
  obtainAciValue traceOps (fun r c => [(r, c)]) wavHeader

/-! ## An integer instance of the arithmetic -/

/-- An instance of the transformer's arithmetic over the integers, with the integer
square root and a stand-in for `kiss_fftr` that returns sample `i` as the real part
of bin `i`. It serves to exhibit that assumptions made on an arithmetic can be met. -/
def intEnv : FftEnv Int where
  zero := 0
  add := fun x y => x + y
  sub := fun x y => x - y
  div := fun x y => x / y
  fabs := fun x => |x|
  ofInt16 := fun x => x
  mul := fun x y => x * y
  sqrt := Int.sqrt
  kiss_fftr := fun x i => (x.getD i 0, 0)
  clearFirstByte := fun x => x

/-- A value of `Flt` that is NaN, `+∞` or a non-negative number. -/
def Flt.NonnegOrNonFinite (v : Flt) : Prop :=
  v = Flt.nan ∨ v = Flt.pinf ∨ ∃ x : ℚ, 0 ≤ x ∧ v = Flt.fin x

/-! ## The header parser -/

theorem length_eq_four {α : Type} (t : List α) (h : t.length = 4) :
    ∃ a b c d, t = [a, b, c, d] := by
  match t, h with
  | [a, b, c, d], _ => exact ⟨a, b, c, d, rfl⟩

theorem byte_sub_ne_zero (a b : Byte) (h : a ≠ b) : (a.val : Int) - (b.val : Int) ≠ 0 := by
  intro h0
  apply h
  apply Fin.ext
  omega

theorem strncmp_RIFF (a b c d : Byte) :
    strncmp [a, b, c, d] RIFF 4 = 0 ↔ [a, b, c, d] = [82, 73, 70, 70] := by
  simp only [strncmp, RIFF]
  constructor
  · intro h
    by_cases ha : a = 82
    · by_cases hb : b = 73
      · by_cases hc : c = 70
        · by_cases hd : d = 70
          · simp [ha, hb, hc, hd]
          · subst ha hb hc
            simp [hd] at h
            exact (byte_sub_ne_zero d 70 hd (h (by decide) (by decide) (by decide))).elim
        · subst ha hb
          simp [hc] at h
          exact (byte_sub_ne_zero c 70 hc (h (by decide) (by decide))).elim
      · subst ha
        simp [hb] at h
        exact (byte_sub_ne_zero b 73 hb (h (by decide))).elim
    · simp [ha] at h
      exact absurd h (byte_sub_ne_zero a 82 ha)
  · intro h
    simp at h
    obtain ⟨rfl, rfl, rfl, rfl⟩ := h
    decide

theorem fread_zero_length (file : List Byte) :
    (fread file 0 sizeofWavHeader).length = min sizeofWavHeader file.length := by
  simp [fread]

theorem tag4_zero_take (file : List Byte) :
    tag4 (fread file 0 sizeofWavHeader) 0 = file.take 4 := by
  simp [tag4, fread, sizeofWavHeader, List.take_take]

theorem strncmp_chunkId (file : List Byte) (hlen : 44 ≤ file.length) :
    strncmp (overlayWavHeader (fread file 0 sizeofWavHeader)).chunkId RIFF 4 = 0 ↔
      file.take 4 = [82, 73, 70, 70] := by
  have h4 : (file.take 4).length = 4 := by simp; omega
  obtain ⟨a, b, c, d, habcd⟩ := length_eq_four _ h4
  simp only [overlayWavHeader, tag4_zero_take, habcd]
  exact strncmp_RIFF a b c d

theorem obtainWavHeader_short (fs : FileSystem) (g : Globals) (file : List Byte)
    (hf : fs g.wavFilePath = some file) (hlen : file.length < 44) :
    obtainWavHeader fs g = { rc := -1, wavHeader := none, dumped := false } := by
  have h : (fread file 0 sizeofWavHeader).length ≠ sizeofWavHeader := by
    rw [fread_zero_length]; simp [sizeofWavHeader]; omega
  unfold obtainWavHeader
  rw [hf]
  simp only []
  rw [if_pos h]

theorem obtainWavHeader_badMarker (fs : FileSystem) (g : Globals) (file : List Byte)
    (hf : fs g.wavFilePath = some file) (hlen : 44 ≤ file.length)
    (hm : file.take 4 ≠ [82, 73, 70, 70]) :
    obtainWavHeader fs g =
      { rc := -1, wavHeader := some (overlayWavHeader (fread file 0 sizeofWavHeader)),
        dumped := false } := by
  have h : ¬ (fread file 0 sizeofWavHeader).length ≠ sizeofWavHeader := by
    rw [fread_zero_length]; simp [sizeofWavHeader]; omega
  have h2 : strncmp (overlayWavHeader (fread file 0 sizeofWavHeader)).chunkId RIFF 4 ≠ 0 :=
    fun h0 => hm ((strncmp_chunkId file hlen).1 h0)
  unfold obtainWavHeader
  rw [hf]
  simp only []
  rw [if_neg h, if_pos h2]

theorem obtainWavHeader_ok (fs : FileSystem) (g : Globals) (file : List Byte)
    (hf : fs g.wavFilePath = some file) (hlen : 44 ≤ file.length)
    (hm : file.take 4 = [82, 73, 70, 70]) :
    obtainWavHeader fs g =
      { rc := 0, wavHeader := some (overlayWavHeader (fread file 0 sizeofWavHeader)),
        dumped := g.dumpWavHeader } := by
  have h : ¬ (fread file 0 sizeofWavHeader).length ≠ sizeofWavHeader := by
    rw [fread_zero_length]; simp [sizeofWavHeader]; omega
  have h2 : ¬ strncmp (overlayWavHeader (fread file 0 sizeofWavHeader)).chunkId RIFF 4 ≠ 0 :=
    fun h0 => h0 ((strncmp_chunkId file hlen).2 hm)
  unfold obtainWavHeader
  rw [hf]
  simp only []
  rw [if_neg h, if_neg h2]

theorem obtainWavHeader_rc_iff (fs : FileSystem) (g : Globals) (file : List Byte)
    (hf : fs g.wavFilePath = some file) :
    (obtainWavHeader fs g).rc = -1 ↔
      (file.length < 44 ∨ file.take 4 ≠ [82, 73, 70, 70]) := by
  by_cases hlen : file.length < 44
  · rw [obtainWavHeader_short fs g file hf hlen]
    simp [hlen]
  · by_cases hm : file.take 4 = [82, 73, 70, 70]
    · rw [obtainWavHeader_ok fs g file hf (by omega) hm]
      simp [hlen, hm]
    · rw [obtainWavHeader_badMarker fs g file hf (by omega) hm]
      simp [hm]

theorem main_header_rejected {F : Type} (env : FftEnv F) (fftAlloc : Nat → Bool) (heap : Heap F) (stack : Nat → Byte)
    (fs : FileSystem) (opts : List CmdOpt)
    (hrc : (obtainWavHeader fs (processCmdline opts).2).rc ≠ 0) :
    main env fftAlloc heap stack fs opts =
        { exit := some (-1), stages := [], fftCalls := 0, aciLine := none } ∨
    main env fftAlloc heap stack fs opts =
        { exit := some (-1), stages := [Stage.obtainWavHeader], fftCalls := 0,
          aciLine := none } := by
  unfold main
  by_cases hc : (processCmdline opts).1 ≠ 0
  · left
    rw [if_pos hc]
  · right
    rw [if_neg hc]
    simp only []
    split
    · next h0 _ => exact absurd h0 hrc
    · rfl

theorem encode32_val (v : Nat) (hv : v < 2 ^ 32) :
    ((Fin.ofNat v : Byte).val + 256 * (Fin.ofNat (v / 256) : Byte).val
      + 65536 * (Fin.ofNat (v / 65536) : Byte).val
      + 16777216 * (Fin.ofNat (v / 16777216) : Byte).val) = v := by
  simp only [Fin.ofNat, Fin.val_mk]
  omega

theorem encode16_val (v : Nat) (hv : v < 2 ^ 16) :
    ((Fin.ofNat v : Byte).val + 256 * (Fin.ofNat (v / 256) : Byte).val) = v := by
  simp only [Fin.ofNat, Fin.val_mk]
  omega

theorem overlay_encode (h : WavHeader) (hwf : h.wf) (rest : List Byte) :
    overlayWavHeader (fread (encodeWavHeader h ++ rest) 0 sizeofWavHeader) = h := by
  obtain ⟨h1, h2, h3, h4, h5, h6, h7, h8, h9, h10, h11, h12, h13⟩ := hwf
  obtain ⟨a1, a2, a3, a4, e1⟩ := length_eq_four _ h1
  obtain ⟨b1, b2, b3, b4, e2⟩ := length_eq_four _ h2
  obtain ⟨c1, c2, c3, c4, e3⟩ := length_eq_four _ h3
  obtain ⟨d1, d2, d3, d4, e4⟩ := length_eq_four _ h4
  cases h with
  | mk chunkId chunkSize format subchunk1Id subchunk1Size audioFormat numChannels sampleRate
      byteRate blockAlign bitsPerSample subchunk2Id subchunk2Size =>
    simp only at e1 e2 e3 e4 h5 h6 h7 h8 h9 h10 h11 h12 h13
    subst e1 e2 e3 e4
    simp only [encodeWavHeader, encode32, encode16, fread, sizeofWavHeader, List.drop_zero,
      List.cons_append, List.nil_append, List.take_succ_cons, List.take_zero,
      overlayWavHeader, tag4, le32, le16, byteAt, List.getD_cons_succ, List.getD_cons_zero,
      List.drop_succ_cons, List.append_assoc]
    rw [encode32_val _ h5, encode32_val _ h6, encode16_val _ h7, encode16_val _ h8,
      encode32_val _ h9, encode32_val _ h10, encode16_val _ h11, encode16_val _ h12,
      encode32_val _ h13]

/-! ## The matrix builder -/

theorem loopBound_lt (h : WavHeader) : loopBound h < UINT_MOD :=
  Nat.mod_lt _ (by decide)

theorem loopBound_eq (h : WavHeader) (h1 : FFT_N ≤ h.subchunk2Size)
    (h2 : h.subchunk2Size < 2 ^ 32) : loopBound h = h.subchunk2Size / FFT_N - 1 := by
  unfold loopBound UINT_MOD FFT_N at *
  omega

theorem populateLoop_exit {F : Type} (env : FftEnv F) (fftAlloc : Nat → Bool) (h : WavHeader)
    (file : List Byte) (fuel : Nat) (s : PopState F) (hs : ¬ s.numFfts < loopBound h) :
    populateLoop env fftAlloc h file (fuel + 1) s =
      { s with numFfts := (s.numFfts + 1) % UINT_MOD } := by
  unfold loopBound at hs
  rw [populateLoop, if_neg hs]

theorem populateLoop_step {F : Type} (env : FftEnv F) (fftAlloc : Nat → Bool) (h : WavHeader)
    (file : List Byte) (fuel : Nat) (s : PopState F) (hs : s.numFfts < loopBound h)
    (hread : (fread file s.pos FFT_N).length = FFT_N)
    (halloc : fftAlloc s.calls.length = true) :
    populateLoop env fftAlloc h file (fuel + 1) s =
      populateLoop env fftAlloc h file fuel (popStep env file s) := by
  have hlt : s.numFfts + 1 < UINT_MOD := by
    have := loopBound_lt h
    omega
  unfold loopBound at hs
  rw [populateLoop, if_pos hs]
  have hmod : (s.numFfts + 1) % UINT_MOD = s.numFfts + 1 := Nat.mod_eq_of_lt hlt
  simp only [readSamples, hread, ne_eq, not_true_eq_false, if_false, obtainFftMagnitudeData,
    halloc, hmod, popStep, Option.getD_some]
  simp

theorem storeBytes_storeBytes (buf : Nat → Byte) (d1 d2 : List Byte)
    (h : d1.length ≤ d2.length) :
    storeBytes (storeBytes buf d1) d2 = storeBytes buf d2 := by
  funext j
  unfold storeBytes
  by_cases hj : j < d2.length
  · rw [List.getD_eq_getElem _ _ hj, List.getD_eq_getElem _ _ hj]
  · rw [List.getD_eq_default _ _ (by omega), List.getD_eq_default _ _ (by omega),
      List.getD_eq_default _ _ (by omega)]

theorem popStep_popAfter {F : Type} (env : FftEnv F) (file : List Byte) (stack : Nat → Byte)
    (cell : Nat → Nat → F) (k : Nat)
    (hread : ∀ i ≤ k, (blockBytes file i).length = FFT_N) :
    popStep env file (popAfter env file stack cell k) = popAfter env file stack cell (k + 1) := by
  have hbuf : storeBytes (if k = 0 then stack else storeBytes stack (blockBytes file (k - 1)))
      (fread file (sizeofWavHeader + FFT_N * k) FFT_N) = storeBytes stack (blockBytes file k) := by
    by_cases hk : k = 0
    · subst hk; rfl
    · rw [if_neg hk]
      exact storeBytes_storeBytes _ _ _
        (by rw [hread (k - 1) (by omega)]; exact (hread k le_rfl).ge)
  simp only [popStep, popAfter, hbuf, cellAfter, blockSamples, List.range_succ, List.map_append,
    List.map_cons, List.map_nil, Nat.add_sub_cancel]
  simp [Nat.mul_succ, Nat.add_assoc]

theorem populateLoop_run {F : Type} (env : FftEnv F) (fftAlloc : Nat → Bool) (h : WavHeader)
    (file : List Byte) (stack : Nat → Byte) (cell : Nat → Nat → F) (k : Nat) :
    ∀ (j fuel : Nat), j + k ≤ loopBound h →
      (∀ i < j + k, (blockBytes file i).length = FFT_N) →
      (∀ i < j + k, fftAlloc i = true) →
      populateLoop env fftAlloc h file (fuel + k) (popAfter env file stack cell j) =
        populateLoop env fftAlloc h file fuel (popAfter env file stack cell (j + k)) := by
  induction k with
  | zero => intro j fuel _ _ _; rfl
  | succ k ih =>
    intro j fuel hb hread halloc
    have hstep := populateLoop_step env fftAlloc h file (fuel + k)
      (popAfter env file stack cell j) (by simp only [popAfter]; omega)
      (hread j (by omega)) (by simpa [popAfter] using halloc j (by omega))
    rw [← Nat.add_assoc, hstep, popStep_popAfter env file stack cell j
      (fun i hi => hread i (by omega))]
    have hjk : j + (k + 1) = j + 1 + k := by omega
    rw [hjk]
    exact ih (j + 1) fuel (by omega) (fun i hi => hread i (by omega))
      (fun i hi => halloc i (by omega))

theorem populateLoop_enough_fuel {F : Type} (env : FftEnv F) (fftAlloc : Nat → Bool)
    (h : WavHeader) (file : List Byte) (stack : Nat → Byte) (cell : Nat → Nat → F)
    (hread : ∀ i < loopBound h, (blockBytes file i).length = FFT_N)
    (halloc : ∀ i < loopBound h, fftAlloc i = true)
    (fuel : Nat) (hfuel : loopBound h < fuel) :
    populateLoop env fftAlloc h file fuel (popAfter env file stack cell 0) =
      { popAfter env file stack cell (loopBound h) with
        numFfts := (loopBound h + 1) % UINT_MOD } := by
  have hd : fuel = (fuel - loopBound h - 1 + 1) + loopBound h := by omega
  rw [hd, populateLoop_run env fftAlloc h file stack cell (loopBound h) 0 _
    (by omega) (by simpa using hread) (by simpa using halloc)]
  rw [Nat.zero_add, populateLoop_exit env fftAlloc h file _ _ (by simp [popAfter])]
  simp only [popAfter]

theorem populateLoop_success {F : Type} (env : FftEnv F) (fftAlloc : Nat → Bool)
    (h : WavHeader) (file : List Byte) (stack : Nat → Byte) (cell : Nat → Nat → F)
    (hread : ∀ i < loopBound h, (blockBytes file i).length = FFT_N)
    (halloc : ∀ i < loopBound h, fftAlloc i = true) :
    populateLoop env fftAlloc h file UINT_MOD (popAfter env file stack cell 0) =
      { popAfter env file stack cell (loopBound h) with
        numFfts := (loopBound h + 1) % UINT_MOD } :=
  populateLoop_enough_fuel env fftAlloc h file stack cell hread halloc UINT_MOD (loopBound_lt h)

theorem blockBytes_length (file : List Byte) (i : Nat)
    (h : sizeofWavHeader + FFT_N * (i + 1) ≤ file.length) :
    (blockBytes file i).length = FFT_N := by
  simp only [blockBytes, fread, List.length_take, List.length_drop]
  have : FFT_N * (i + 1) = FFT_N * i + FFT_N := Nat.mul_succ _ _
  omega

theorem populateMagnitudeMatrix_success {F : Type} (env : FftEnv F) (fftAlloc : Nat → Bool)
    (fs : FileSystem) (g : Globals) (stack : Nat → Byte) (h : WavHeader) (M : Matrix F)
    (file : List Byte) (hf : fs g.wavFilePath = some file)
    (hlen : sizeofWavHeader + FFT_N * loopBound h ≤ file.length)
    (halloc : ∀ i < loopBound h, fftAlloc i = true) :
    populateMagnitudeMatrix env fftAlloc fs g stack h M =
      { rc := 0
        cell := cellAfter env file stack M.cell (loopBound h)
        calls := (List.range (loopBound h)).map fun i => (i + 1, blockSamples file stack i) } := by
  have hread : ∀ i < loopBound h, (blockBytes file i).length = FFT_N := by
    intro i hi
    apply blockBytes_length
    have : FFT_N * (i + 1) ≤ FFT_N * loopBound h := Nat.mul_le_mul_left _ hi
    omega
  have hrun := populateLoop_success env fftAlloc h file stack M.cell hread halloc
  unfold populateMagnitudeMatrix
  rw [hf]
  simp only []
  have h0 : popAfter env file stack M.cell 0 =
      ⟨0, sizeofWavHeader, stack, M.cell, 0, []⟩ := by
    simp [popAfter, cellAfter]
  rw [← h0, hrun]
  simp only [popAfter]

theorem cellAfter_untouched {F : Type} (env : FftEnv F) (file : List Byte) (stack : Nat → Byte)
    (cell : Nat → Nat → F) (k r c : Nat) (hr : r = 0 ∨ k < r) :
    cellAfter env file stack cell k r c = cell r c := by
  induction k with
  | zero => rfl
  | succ k ih =>
    have hne : r ≠ k + 1 := by omega
    simp only [cellAfter, setRow, memsetRow, if_neg hne]
    exact ih (by omega)

theorem spectrumOf_length {F : Type} (env : FftEnv F) (block : List Int) :
    (spectrumOf env block).length = NUM_BINS := by
  simp [spectrumOf, magnitudesOf]

theorem cellAfter_written {F : Type} (env : FftEnv F) (file : List Byte) (stack : Nat → Byte)
    (cell : Nat → Nat → F) (k r c : Nat) (h1 : 1 ≤ r) (hk : r ≤ k) (hc : c < NUM_BINS) :
    (spectrumOf env (blockSamples file stack (r - 1)))[c]? =
      some (cellAfter env file stack cell k r c) := by
  induction k with
  | zero => omega
  | succ k ih =>
    by_cases hr : r = k + 1
    · subst hr
      have hlen : c < (spectrumOf env (blockSamples file stack k)).length := by
        rw [spectrumOf_length]; exact hc
      simp only [cellAfter, setRow, if_true, Nat.add_sub_cancel]
      rw [List.getD_eq_getElem _ _ hlen, List.getElem?_eq_getElem hlen]
    · simp only [cellAfter, setRow, memsetRow, if_neg hr]
      exact ih (by omega)

theorem blockBytes_getD (file : List Byte) (i t : Nat) (x : Byte)
    (hlen : (blockBytes file i).length = FFT_N) (ht : t < FFT_N) :
    (blockBytes file i).getD t x = file.getD (sizeofWavHeader + (FFT_N * i + t)) 0 := by
  have h1 : t < (blockBytes file i).length := by omega
  have h2 : sizeofWavHeader + FFT_N * i + t < file.length := by
    simp only [blockBytes, fread, List.length_take, List.length_drop] at hlen
    omega
  rw [List.getD_eq_getElem _ _ h1, List.getD_eq_getElem _ _ (by omega)]
  simp [blockBytes, fread, Nat.add_assoc]

theorem int16At_congr (b1 b2 : Nat → Byte) (i j : Nat) (h0 : b1 (2 * i) = b2 (2 * j))
    (h1 : b1 (2 * i + 1) = b2 (2 * j + 1)) : int16At b1 i = int16At b2 j := by
  simp only [int16At, h0, h1]

theorem blockSamples_split (file : List Byte) (stack : Nat → Byte) (i : Nat)
    (hlen : (blockBytes file i).length = FFT_N) :
    blockSamples file stack i =
      (List.range 512).map (fun k => streamSample file (512 * i + k)) ++
      (List.range 512).map (fun k => int16At stack (512 + k)) := by
  have hN : FFT_N = 512 + 512 := rfl
  have e1 : (List.range 512).map (int16At (storeBytes stack (blockBytes file i))) =
      (List.range 512).map (fun k => streamSample file (512 * i + k)) := by
    apply List.map_congr_left
    intro k hk
    have hk' : k < 512 := List.mem_range.1 hk
    unfold streamSample
    apply int16At_congr
    · simp only [storeBytes]
      rw [blockBytes_getD file i (2 * k) _ hlen (by unfold FFT_N; omega)]
      have : FFT_N * i + 2 * k = 2 * (512 * i + k) := by unfold FFT_N; omega
      rw [this]
    · simp only [storeBytes]
      rw [blockBytes_getD file i (2 * k + 1) _ hlen (by unfold FFT_N; omega)]
      have : FFT_N * i + (2 * k + 1) = 2 * (512 * i + k) + 1 := by unfold FFT_N; omega
      rw [this]
  have e2 : (List.range 512).map (int16At (storeBytes stack (blockBytes file i)) ∘ (512 + ·)) =
      (List.range 512).map (fun k => int16At stack (512 + k)) := by
    apply List.map_congr_left
    intro k _
    apply int16At_congr
    · simp only [storeBytes]
      rw [List.getD_eq_default _ _ (by rw [hlen]; unfold FFT_N; omega)]
    · simp only [storeBytes]
      rw [List.getD_eq_default _ _ (by rw [hlen]; unfold FFT_N; omega)]
  simp only [blockSamples, samplesOf]
  rw [hN, List.range_add, List.map_append, List.map_map, e1, e2]

/-! ## The example recordings -/

theorem silentFile_length (sampleRate dataLength : Nat) :
    (silentFile sampleRate dataLength).length = sizeofWavHeader + dataLength := by
  simp only [silentFile, encodeWavHeader, encode32, encode16, pcmHeader, sizeofWavHeader,
    List.length_append, List.length_cons, List.length_nil, List.length_replicate]

theorem pcmHeader_wf (sampleRate dataLength : Nat) (hs : sampleRate < 2 ^ 16)
    (hd : dataLength < 2 ^ 31) : (pcmHeader sampleRate dataLength).wf := by
  simp only [WavHeader.wf, pcmHeader, List.length_cons, List.length_nil]
  and_intros <;> first | trivial | omega

theorem obtainWavHeader_silentFile_any (g : Globals) (sampleRate dataLength : Nat)
    (hs : sampleRate < 2 ^ 16) (hd : dataLength < 2 ^ 31) :
    obtainWavHeader (oneFile (silentFile sampleRate dataLength)) g =
      { rc := 0, wavHeader := some (pcmHeader sampleRate dataLength),
        dumped := g.dumpWavHeader } := by
  have hlen : 44 ≤ (silentFile sampleRate dataLength).length := by
    rw [silentFile_length]; unfold sizeofWavHeader; omega
  have hm : (silentFile sampleRate dataLength).take 4 = [82, 73, 70, 70] := by
    simp [silentFile, encodeWavHeader, pcmHeader]
  rw [obtainWavHeader_ok _ _ (silentFile sampleRate dataLength) rfl hlen hm]
  simp only [silentFile, overlay_encode _ (pcmHeader_wf sampleRate dataLength hs hd)]

theorem populate_silentFile_any {F : Type} (env : FftEnv F) (g : Globals) (stack : Nat → Byte)
    (M : Matrix F) (sampleRate dataLength : Nat)
    (hlen : FFT_N * loopBound (pcmHeader sampleRate dataLength) ≤ dataLength) :
    populateMagnitudeMatrix env (fun _ => true) (oneFile (silentFile sampleRate dataLength))
        g stack (pcmHeader sampleRate dataLength) M =
      { rc := 0
        cell := cellAfter env (silentFile sampleRate dataLength) stack M.cell
          (loopBound (pcmHeader sampleRate dataLength))
        calls := (List.range (loopBound (pcmHeader sampleRate dataLength))).map fun i =>
          (i + 1, blockSamples (silentFile sampleRate dataLength) stack i) } :=
  populateMagnitudeMatrix_success env _ _ _ stack _ M _ rfl
    (by rw [silentFile_length]; omega) (fun _ _ => rfl)

theorem getElem?_map_range {α : Type} (f : Nat → α) (n i : Nat) (h : i < n) :
    ((List.range n).map f)[i]? = some (f i) := by
  rw [List.getElem?_map, List.getElem?_range h]
  rfl

theorem silentFile_blockBytes_length (sampleRate dataLength i : Nat)
    (h : FFT_N * (i + 1) ≤ dataLength) :
    (blockBytes (silentFile sampleRate dataLength) i).length = FFT_N :=
  blockBytes_length _ i (by rw [silentFile_length]; omega)

theorem streamSample_silentFile (sampleRate dataLength j : Nat) :
    streamSample (silentFile sampleRate dataLength) j = 0 := by
  have hb : ∀ t, (silentFile sampleRate dataLength).getD (sizeofWavHeader + t) 0 = 0 := by
    intro t
    have hl : (encodeWavHeader (pcmHeader sampleRate dataLength)).length = sizeofWavHeader := by
      simp only [encodeWavHeader, encode32, encode16, pcmHeader, sizeofWavHeader,
        List.length_append, List.length_cons, List.length_nil]
    rw [List.getD_eq_getElem?_getD, silentFile,
      List.getElem?_append_right (by rw [hl]; omega), hl, Nat.add_sub_cancel_left]
    by_cases ht : t < dataLength
    · simp [ht]
    · simp [ht]
  simp only [streamSample, int16At, hb]
  rfl

/-! ## The reducer -/

theorem numFftsInTemporalStep_le (h : WavHeader) :
    numFftsInTemporalStep h ≤ TEMPORAL_STEP * h.sampleRate / FFT_N := by
  unfold numFftsInTemporalStep
  exact Nat.div_le_div_right (Nat.mod_le _ _)

theorem numFftsInTemporalStep_lt (h : WavHeader) : numFftsInTemporalStep h < 2 ^ 22 := by
  unfold numFftsInTemporalStep UINT_MOD FFT_N
  have := Nat.mod_lt (TEMPORAL_STEP * h.sampleRate) (show 0 < 2 ^ 32 by decide)
  omega

theorem steps_mul_le (h : WavHeader) :
    numTemporalStepsInRecording h * (TEMPORAL_STEP * h.sampleRate) ≤ h.subchunk2Size := by
  unfold numTemporalStepsInRecording
  calc h.subchunk2Size / h.sampleRate / TEMPORAL_STEP * (TEMPORAL_STEP * h.sampleRate)
      = (h.subchunk2Size / h.sampleRate / TEMPORAL_STEP * TEMPORAL_STEP) * h.sampleRate := by
        rw [Nat.mul_assoc]
    _ ≤ (h.subchunk2Size / h.sampleRate) * h.sampleRate :=
        Nat.mul_le_mul_right _ (Nat.div_mul_le_self _ _)
    _ ≤ h.subchunk2Size := Nat.div_mul_le_self _ _

theorem startingFft_lt (h : WavHeader) (hL : h.subchunk2Size < 2 ^ 32) (m : Nat)
    (hm : m < numTemporalStepsInRecording h) :
    m * numFftsInTemporalStep h + numFftsInTemporalStep h ≤ 2 ^ 22 := by
  have h1 : (m + 1) * numFftsInTemporalStep h ≤
      numTemporalStepsInRecording h * (TEMPORAL_STEP * h.sampleRate / FFT_N) :=
    Nat.mul_le_mul hm (numFftsInTemporalStep_le h)
  have h2 : numTemporalStepsInRecording h * (TEMPORAL_STEP * h.sampleRate / FFT_N) ≤
      numTemporalStepsInRecording h * (TEMPORAL_STEP * h.sampleRate) / FFT_N :=
    Nat.mul_div_le_mul_div_assoc _ _ _
  have h3 : numTemporalStepsInRecording h * (TEMPORAL_STEP * h.sampleRate) / FFT_N ≤
      h.subchunk2Size / FFT_N := Nat.div_le_div_right (steps_mul_le h)
  have h4 : h.subchunk2Size / FFT_N ≤ 2 ^ 22 := by
    unfold FFT_N
    omega
  have h5 : (m + 1) * numFftsInTemporalStep h =
      m * numFftsInTemporalStep h + numFftsInTemporalStep h := Nat.succ_mul _ _
  omega

theorem toSizeT_toInt32 (x : Nat) (hx : x < 2 ^ 31) : toSizeT (toInt32 (x % SIZE_MOD)) = x := by
  have h1 : x % SIZE_MOD = x := Nat.mod_eq_of_lt (by unfold SIZE_MOD; omega)
  have h2 : x % UINT_MOD = x := Nat.mod_eq_of_lt (by unfold UINT_MOD; omega)
  rw [h1]
  unfold toInt32
  rw [h2, if_pos hx]
  unfold toSizeT SIZE_MOD
  omega

theorem foldl_pair {α β γ : Type} (f : β → γ → β) (g : α → γ → α) (l : List γ) :
    ∀ (a : β) (b : α),
      l.foldl (fun (acc : β × α) k => (f acc.1 k, g acc.2 k)) (a, b) =
        (l.foldl f a, l.foldl g b) := by
  induction l with
  | nil => intro a b; rfl
  | cons x xs ih => intro a b; exact ih (f a x) (g b x)

theorem stepSums_eq {F : Type} (ops : FloatOps F) (M : Nat → Nat → F) (h : WavHeader)
    (hL : h.subchunk2Size < 2 ^ 32) (hB : 2 ≤ numFftsInTemporalStep h) (m q : Nat)
    (hm : m < numTemporalStepsInRecording h) :
    stepSums ops M h m q =
      (specD ops M (numFftsInTemporalStep h) m q, specS ops M (numFftsInTemporalStep h) m q) := by
  have hlt := numFftsInTemporalStep_lt h
  have hstart := startingFft_lt h hL m hm
  have hbound : (numFftsInTemporalStep h + UINT_MOD - 2) % UINT_MOD =
      numFftsInTemporalStep h - 2 := by
    unfold UINT_MOD
    omega
  have hconv : toSizeT (toInt32 (m * numFftsInTemporalStep h % SIZE_MOD)) =
      m * numFftsInTemporalStep h := toSizeT_toInt32 _ (by omega)
  unfold stepSums specD specS sumOver
  simp only [hbound, hconv]
  rw [← foldl_pair (fun (acc : F) k => ops.add acc
        (ops.fabs (ops.sub (M (m * numFftsInTemporalStep h + k) q)
          (M (m * numFftsInTemporalStep h + k + 1) q))))
      (fun (acc : F) k => ops.add acc (M (m * numFftsInTemporalStep h + k) q))]
  apply List.foldl_ext
  intro acc k hk
  have hk' : k < numFftsInTemporalStep h - 2 := List.mem_range.1 hk
  have e0 : (m * numFftsInTemporalStep h + k) % SIZE_MOD = m * numFftsInTemporalStep h + k :=
    Nat.mod_eq_of_lt (by unfold SIZE_MOD; omega)
  have e1 : (m * numFftsInTemporalStep h + k + 1) % SIZE_MOD =
      m * numFftsInTemporalStep h + k + 1 :=
    Nat.mod_eq_of_lt (by unfold SIZE_MOD; omega)
  simp only [e0, e1]

theorem obtainAciValue_eq_code_constants {F : Type} (ops : FloatOps F) (M : Nat → Nat → F)
    (h : WavHeader) (hsr : 0 < h.sampleRate) (hL : h.subchunk2Size < 2 ^ 32)
    (hB : 2 ≤ numFftsInTemporalStep h) :
    obtainAciValue ops M h =
      some (specAci ops M (numFftsInTemporalStep h) (numTemporalStepsInRecording h)) := by
  unfold obtainAciValue specAci sumOver
  rw [if_neg (by omega)]
  refine congrArg some ?_
  apply List.foldl_ext
  intro aciTotal q _
  refine congrArg (ops.add aciTotal) ?_
  apply List.foldl_ext
  intro aciTempStep m hm
  rw [stepSums_eq ops M h hL hB m q (List.mem_range.1 hm)]

theorem obtainAciValue_no_steps {F : Type} (ops : FloatOps F) (M : Nat → Nat → F)
    (h : WavHeader) (hsr : 0 < h.sampleRate) (hN : numTemporalStepsInRecording h = 0) (B : Nat) :
    obtainAciValue ops M h = some (specAci ops M B 0) := by
  unfold obtainAciValue specAci sumOver
  rw [if_neg (by omega), hN]
  simp only [List.range_zero, List.foldl_nil]

theorem no_steps_of_wrap (h : WavHeader) (hL : h.subchunk2Size < 2 ^ 32)
    (hw : 2 ^ 32 ≤ TEMPORAL_STEP * h.sampleRate) : numTemporalStepsInRecording h = 0 := by
  have h1 := steps_mul_le h
  by_contra hne
  have h2 : 1 * (TEMPORAL_STEP * h.sampleRate) ≤
      numTemporalStepsInRecording h * (TEMPORAL_STEP * h.sampleRate) :=
    Nat.mul_le_mul_right _ (Nat.one_le_iff_ne_zero.2 hne)
  omega

theorem obtainAciValue_isSome {F : Type} (ops : FloatOps F) (M : Nat → Nat → F)
    (h : WavHeader) (hsr : 0 < h.sampleRate) : (obtainAciValue ops M h).isSome = true := by
  unfold obtainAciValue
  rw [if_neg (by omega)]
  rfl

/-! ## Division by a zero sum -/

theorem Flt.add_nan_left (x : Flt) : Flt.add Flt.nan x = Flt.nan := by
  cases x <;> rfl

theorem Flt.add_nan_right (x : Flt) : Flt.add x Flt.nan = Flt.nan := by
  cases x <;> rfl

theorem Flt.foldl_add_nan (f : Nat → Flt) (l : List Nat) :
    l.foldl (fun acc i => Flt.add acc (f i)) Flt.nan = Flt.nan := by
  induction l with
  | nil => rfl
  | cons x xs ih => rw [List.foldl_cons, Flt.add_nan_left]; exact ih

theorem Flt.foldl_add_of_nan (f : Nat → Flt) (l : List Nat) (i : Nat) (hi : i ∈ l)
    (hf : f i = Flt.nan) :
    ∀ a : Flt, l.foldl (fun acc i => Flt.add acc (f i)) a = Flt.nan := by
  induction l with
  | nil => exact absurd hi (List.not_mem_nil i)
  | cons x xs ih =>
    intro a
    rw [List.foldl_cons]
    rcases List.mem_cons.1 hi with hx | hx
    · rw [← hx, hf, Flt.add_nan_right]
      exact Flt.foldl_add_nan f xs
    · exact ih hx _

theorem Flt.foldl_add_zero (f : Nat → Flt) (l : List Nat)
    (hf : ∀ i ∈ l, f i = Flt.fin 0) :
    l.foldl (fun acc i => Flt.add acc (f i)) (Flt.fin 0) = Flt.fin 0 := by
  induction l with
  | nil => rfl
  | cons x xs ih =>
    rw [List.foldl_cons, hf x (List.mem_cons_self x xs)]
    have : Flt.add (Flt.fin 0) (Flt.fin 0) = Flt.fin 0 := by
      show Flt.fin (0 + 0) = Flt.fin 0
      rw [add_zero]
    rw [this]
    exact ih (fun i hi => hf i (List.mem_cons_of_mem x hi))

theorem Flt.fabs_sub_zero : Flt.fabs (Flt.sub (Flt.fin 0) (Flt.fin 0)) = Flt.fin 0 := by
  show Flt.fin |0 + -0| = Flt.fin 0
  simp

theorem Flt.div_zero_zero : Flt.div (Flt.fin 0) (Flt.fin 0) = Flt.nan := by
  decide

theorem obtainAciValue_nan_of_zero_step (M : Nat → Nat → Flt) (h : WavHeader)
    (hsr : 0 < h.sampleRate) (hL : h.subchunk2Size < 2 ^ 32)
    (hB : 2 ≤ numFftsInTemporalStep h) (m q : Nat)
    (hm : m < numTemporalStepsInRecording h) (hq : q < NUM_BINS)
    (hzero : ∀ r, m * numFftsInTemporalStep h ≤ r →
      r < m * numFftsInTemporalStep h + numFftsInTemporalStep h → M r q = Flt.fin 0) :
    (stepSums fltOps M h m q).2 = Flt.fin 0 ∧
    Flt.div (stepSums fltOps M h m q).1 (stepSums fltOps M h m q).2 = Flt.nan ∧
    obtainAciValue fltOps M h = some Flt.nan := by
  have hD : specD fltOps M (numFftsInTemporalStep h) m q = Flt.fin 0 := by
    unfold specD sumOver
    apply Flt.foldl_add_zero
    intro k hk
    have hk' : k < numFftsInTemporalStep h - 2 := List.mem_range.1 hk
    show Flt.fabs (Flt.sub _ _) = _
    rw [hzero _ (by omega) (by omega), hzero _ (by omega) (by omega)]
    exact Flt.fabs_sub_zero
  have hS : specS fltOps M (numFftsInTemporalStep h) m q = Flt.fin 0 := by
    unfold specS sumOver
    apply Flt.foldl_add_zero
    intro k hk
    have hk' : k < numFftsInTemporalStep h - 2 := List.mem_range.1 hk
    exact hzero _ (by omega) (by omega)
  have hstep := stepSums_eq fltOps M h hL hB m q hm
  have hdiv : Flt.div (stepSums fltOps M h m q).1 (stepSums fltOps M h m q).2 = Flt.nan := by
    rw [hstep]
    show Flt.div (specD _ _ _ _ _) (specS _ _ _ _ _) = _
    rw [hD, hS]
    exact Flt.div_zero_zero
  refine ⟨by rw [hstep]; exact hS, hdiv, ?_⟩
  rw [obtainAciValue_eq_code_constants fltOps M h hsr hL hB]
  refine congrArg some ?_
  unfold specAci sumOver
  apply Flt.foldl_add_of_nan _ _ q (List.mem_range.2 hq)
  apply Flt.foldl_add_of_nan _ _ m (List.mem_range.2 hm)
  show Flt.div _ _ = _
  rw [hD, hS]
  exact Flt.div_zero_zero

theorem sumOver_one {F : Type} (ops : FloatOps F) (f : Nat → F) :
    sumOver ops 1 f = ops.add ops.zero (f 0) := rfl

theorem Flt.foldl_add_fin (f : Nat → Flt) (c : ℚ) (l : List Nat)
    (hf : ∀ i ∈ l, f i = Flt.fin c) :
    ∀ a : ℚ, l.foldl (fun acc i => Flt.add acc (f i)) (Flt.fin a) = Flt.fin (a + l.length * c) := by
  induction l with
  | nil => intro a; simp
  | cons x xs ih =>
    intro a
    rw [List.foldl_cons, hf x (List.mem_cons_self x xs)]
    show List.foldl _ (Flt.fin (a + c)) xs = _
    rw [ih (fun i hi => hf i (List.mem_cons_of_mem x hi))]
    congr 1
    simp only [List.length_cons]
    push_cast
    ring

/-- The ACI of a recording with three blocks per temporal step and one temporal
step, as a function of rows 0 and 1 of the matrix. -/
theorem obtainAciValue_three_one {F : Type} (ops : FloatOps F) (C : Nat → Nat → F)
    (h : WavHeader) (hsr : 0 < h.sampleRate) (hL : h.subchunk2Size < 2 ^ 32)
    (hB : numFftsInTemporalStep h = 3) (hN : numTemporalStepsInRecording h = 1) :
    obtainAciValue ops C h =
      some (sumOver ops NUM_BINS fun q =>
        ops.add ops.zero
          (ops.div (ops.add ops.zero (ops.fabs (ops.sub (C 0 q) (C 1 q))))
            (ops.add ops.zero (C 0 q)))) := by
  rw [obtainAciValue_eq_code_constants ops C h hsr hL (by omega), hB, hN]
  have h32 : 3 - 2 = 1 := rfl
  simp only [specAci, specD, specS, h32, sumOver_one, Nat.zero_mul, Nat.zero_add]

/-! ## Whole runs -/

theorem main_success {F : Type} (env : FftEnv F) (fftAlloc : Nat → Bool) (heap : Heap F)
    (stack : Nat → Byte) (fs : FileSystem) (opts : List CmdOpt) (h : WavHeader) (d : Bool)
    (C : Nat → Nat → F) (cs : List (Nat × List Int)) (v : F)
    (hcmd : (processCmdline opts).1 = 0)
    (hhdr : obtainWavHeader fs (processCmdline opts).2 =
      { rc := 0, wavHeader := some h, dumped := d })
    (hheap : heap.tableOk = true)
    (hpop : populateMagnitudeMatrix env fftAlloc fs (processCmdline opts).2 stack h
      { numRows := (h.subchunk2Size / FFT_N) % UINT_MOD, cell := heap.garbage } =
      { rc := 0, cell := C, calls := cs })
    (haci : obtainAciValue env.toFloatOps C h = some v) :
    main env fftAlloc heap stack fs opts =
      { exit := some 0
        stages := [Stage.obtainWavHeader, Stage.createMagnitudeMatrix,
          Stage.populateMagnitudeMatrix, Stage.obtainAciValue, Stage.destroyMagnitudeMatrix]
        fftCalls := cs.length
        aciLine := some v } := by
  unfold main
  rw [if_neg (by rw [hcmd]; decide)]
  simp only [hhdr, createMagnitudeMatrix, hheap, if_true, hpop, haci, ne_eq,
    not_true_eq_false, if_false]

theorem main_silentFile {F : Type} (env : FftEnv F) (garbage : Nat → Nat → F)
    (stack : Nat → Byte) (path : String) (sampleRate dataLength : Nat)
    (hs : sampleRate < 2 ^ 16) (hsr : 0 < sampleRate) (hd : dataLength < 2 ^ 31)
    (hlen : FFT_N * loopBound (pcmHeader sampleRate dataLength) ≤ dataLength) :
    ∃ v, obtainAciValue env.toFloatOps
          (cellAfter env (silentFile sampleRate dataLength) stack garbage
            (loopBound (pcmHeader sampleRate dataLength)))
          (pcmHeader sampleRate dataLength) = some v ∧
      main env (fun _ => true) { tableOk := true, garbage := garbage } stack
          (oneFile (silentFile sampleRate dataLength)) [CmdOpt.f path] =
        { exit := some 0
          stages := [Stage.obtainWavHeader, Stage.createMagnitudeMatrix,
            Stage.populateMagnitudeMatrix, Stage.obtainAciValue,
            Stage.destroyMagnitudeMatrix]
          fftCalls := loopBound (pcmHeader sampleRate dataLength)
          aciLine := some v } := by
  have hsome := obtainAciValue_isSome env.toFloatOps
    (cellAfter env (silentFile sampleRate dataLength) stack garbage
      (loopBound (pcmHeader sampleRate dataLength)))
    (pcmHeader sampleRate dataLength) hsr
  obtain ⟨v, hv⟩ := Option.isSome_iff_exists.1 hsome
  refine ⟨v, hv, ?_⟩
  have hm := main_success env (fun _ => true) { tableOk := true, garbage := garbage } stack
    (oneFile (silentFile sampleRate dataLength)) [CmdOpt.f path]
    (pcmHeader sampleRate dataLength) _ _ _ v rfl
    (obtainWavHeader_silentFile_any _ sampleRate dataLength hs hd) rfl
    (populate_silentFile_any env _ stack _ sampleRate dataLength hlen) hv
  rw [hm]
  simp

/-! ## Failing reads -/

theorem populateLoop_short_read {F : Type} (env : FftEnv F) (fftAlloc : Nat → Bool)
    (h : WavHeader) (file : List Byte) (fuel : Nat) (s : PopState F)
    (hs : s.numFfts < loopBound h)
    (hread : (fread file s.pos FFT_N).length ≠ FFT_N) :
    populateLoop env fftAlloc h file (fuel + 1) s =
      { numFfts := s.numFfts + 1
        pos := s.pos + (fread file s.pos FFT_N).length
        samples := storeBytes s.samples (fread file s.pos FFT_N)
        cell := memsetRow env s.cell (s.numFfts + 1)
        rc := -1
        calls := s.calls } := by
  have hlt : s.numFfts + 1 < UINT_MOD := by
    have := loopBound_lt h
    omega
  unfold loopBound at hs
  rw [populateLoop, if_pos hs]
  have hmod : (s.numFfts + 1) % UINT_MOD = s.numFfts + 1 := Nat.mod_eq_of_lt hlt
  simp only [readSamples, hread, ne_eq, not_false_eq_true, if_true, hmod]
  simp

theorem populateLoop_first_short_read {F : Type} (env : FftEnv F) (fftAlloc : Nat → Bool)
    (h : WavHeader) (file : List Byte) (stack : Nat → Byte) (cell : Nat → Nat → F) (j : Nat)
    (hj : j < loopBound h)
    (hfull : ∀ i < j, (blockBytes file i).length = FFT_N)
    (hshort : (blockBytes file j).length ≠ FFT_N)
    (halloc : ∀ i < j, fftAlloc i = true)
    (fuel : Nat) (hfuel : j < fuel) :
    populateLoop env fftAlloc h file fuel (popAfter env file stack cell 0) =
      { numFfts := j + 1
        pos := sizeofWavHeader + FFT_N * j + (blockBytes file j).length
        samples := storeBytes (popAfter env file stack cell j).samples (blockBytes file j)
        cell := memsetRow env (cellAfter env file stack cell j) (j + 1)
        rc := -1
        calls := (List.range j).map fun i => (i + 1, blockSamples file stack i) } := by
  have hd : fuel = (fuel - j - 1 + 1) + j := by omega
  rw [hd, populateLoop_run env fftAlloc h file stack cell j 0 _ (by omega)
    (by simpa using hfull) (by simpa using halloc), Nat.zero_add]
  rw [populateLoop_short_read env fftAlloc h file _ _ (by simpa [popAfter] using hj)
    (by simpa [popAfter, blockBytes] using hshort)]
  simp only [popAfter, blockBytes]

theorem populateMagnitudeMatrix_short_read {F : Type} (env : FftEnv F)
    (fftAlloc : Nat → Bool) (fs : FileSystem) (g : Globals) (stack : Nat → Byte)
    (h : WavHeader) (M : Matrix F) (file : List Byte) (j : Nat)
    (hf : fs g.wavFilePath = some file) (hj : j < loopBound h)
    (hfull : ∀ i < j, (blockBytes file i).length = FFT_N)
    (hshort : (blockBytes file j).length ≠ FFT_N)
    (halloc : ∀ i < j, fftAlloc i = true) :
    populateMagnitudeMatrix env fftAlloc fs g stack h M =
      { rc := -1
        cell := memsetRow env (cellAfter env file stack M.cell j) (j + 1)
        calls := (List.range j).map fun i => (i + 1, blockSamples file stack i) } := by
  have hrun := populateLoop_first_short_read env fftAlloc h file stack M.cell j hj hfull hshort
    halloc UINT_MOD (by have := loopBound_lt h; omega)
  have h0 : popAfter env file stack M.cell 0 =
      ⟨0, sizeofWavHeader, stack, M.cell, 0, []⟩ := by
    simp [popAfter, cellAfter]
  unfold populateMagnitudeMatrix
  rw [hf]
  simp only []
  rw [← h0, hrun]

/-! ## The branches of `main` -/

theorem main_populate_failed {F : Type} (env : FftEnv F) (fftAlloc : Nat → Bool)
    (heap : Heap F) (stack : Nat → Byte) (fs : FileSystem) (opts : List CmdOpt)
    (h : WavHeader) (M : Matrix F)
    (hcmd : (processCmdline opts).1 = 0)
    (hrc : (obtainWavHeader fs (processCmdline opts).2).rc = 0)
    (hh : (obtainWavHeader fs (processCmdline opts).2).wavHeader = some h)
    (hcreate : createMagnitudeMatrix heap h = some M)
    (hpop : (populateMagnitudeMatrix env fftAlloc fs (processCmdline opts).2 stack h M).rc ≠ 0) :
    main env fftAlloc heap stack fs opts =
      { exit := some (-1)
        stages := [Stage.obtainWavHeader, Stage.createMagnitudeMatrix,
          Stage.populateMagnitudeMatrix, Stage.destroyMagnitudeMatrix]
        fftCalls :=
          (populateMagnitudeMatrix env fftAlloc fs (processCmdline opts).2 stack h M).calls.length
        aciLine := none } := by
  unfold main
  rw [if_neg (by rw [hcmd]; decide)]
  simp only [hrc, hh, hcreate]
  rw [if_pos hpop]

theorem obtainWavHeader_encoded (h : WavHeader) (hwf : h.wf)
    (hid : h.chunkId = [82, 73, 70, 70]) (fs : FileSystem) (g : Globals) (rest : List Byte)
    (hf : fs g.wavFilePath = some (encodeWavHeader h ++ rest)) :
    obtainWavHeader fs g = { rc := 0, wavHeader := some h, dumped := g.dumpWavHeader } := by
  have hlen : (encodeWavHeader h).length = 44 := by
    obtain ⟨h1, h2, h3, h4, _⟩ := hwf
    simp only [encodeWavHeader, encode32, encode16, List.length_append, List.length_cons,
      List.length_nil, h1, h2, h3, h4]
  have htake : (encodeWavHeader h ++ rest).take 4 = [82, 73, 70, 70] := by
    have h4 : h.chunkId.length = 4 := by rw [hid]; rfl
    simp only [encodeWavHeader, List.append_assoc]
    rw [List.take_append_of_le_length (by omega), ← h4, List.take_length, hid]
  rw [obtainWavHeader_ok fs g _ hf (by rw [List.length_append]; omega) htake,
    overlay_encode h hwf rest]

theorem truncatedFile_length : truncatedFile.length = 1544 := by
  simp only [truncatedFile, encodeWavHeader, encode32, encode16, pcmHeader,
    List.length_append, List.length_cons, List.length_nil, List.length_replicate]

theorem blockBytes_length_eq (file : List Byte) (i : Nat) :
    (blockBytes file i).length = min FFT_N (file.length - (sizeofWavHeader + FFT_N * i)) := by
  simp only [blockBytes, fread, List.length_take, List.length_drop]

theorem foldl_inv {α β : Type} (P : β → Prop) (f : β → α → β) (l : List α)
    (hf : ∀ b a, P b → a ∈ l → P (f b a)) : ∀ b, P b → P (l.foldl f b) := by
  induction l with
  | nil => intro b hb; exact hb
  | cons x xs ih =>
    intro b hb
    exact ih (fun b a hb ha => hf b a hb (List.mem_cons_of_mem x ha)) _
      (hf b x hb (List.mem_cons_self x xs))

theorem Flt.add_nonnegOrNonFinite (x y : Flt) (hx : x.NonnegOrNonFinite)
    (hy : y.NonnegOrNonFinite) : (Flt.add x y).NonnegOrNonFinite := by
  rcases hx with rfl | rfl | ⟨a, ha, rfl⟩
  · rw [Flt.add_nan_left]; exact Or.inl rfl
  · rcases hy with rfl | rfl | ⟨b, _, rfl⟩
    · exact Or.inl rfl
    · exact Or.inr (Or.inl rfl)
    · exact Or.inr (Or.inl rfl)
  · rcases hy with rfl | rfl | ⟨b, hb, rfl⟩
    · exact Or.inl rfl
    · exact Or.inr (Or.inl rfl)
    · exact Or.inr (Or.inr ⟨a + b, add_nonneg ha hb, rfl⟩)

theorem Flt.div_nonnegOrNonFinite (a b : ℚ) (ha : 0 ≤ a) (hb : 0 ≤ b) :
    (Flt.div (Flt.fin a) (Flt.fin b)).NonnegOrNonFinite := by
  show (if b = 0 then (if a = 0 then Flt.nan else if 0 < a then Flt.pinf else Flt.ninf)
    else Flt.fin (a / b)).NonnegOrNonFinite
  by_cases hb0 : b = 0
  · rw [if_pos hb0]
    by_cases ha0 : a = 0
    · rw [if_pos ha0]; exact Or.inl rfl
    · rw [if_neg ha0, if_pos (lt_of_le_of_ne ha (Ne.symm ha0))]; exact Or.inr (Or.inl rfl)
  · rw [if_neg hb0]
    exact Or.inr (Or.inr ⟨a / b, div_nonneg ha hb, rfl⟩)

theorem stepSums_fin_nonneg (A : Nat → Nat → ℚ) (hA : ∀ r c, 0 ≤ A r c) (h : WavHeader)
    (m q : Nat) :
    ∃ d s : ℚ, 0 ≤ d ∧ 0 ≤ s ∧
      stepSums fltOps (fun r c => Flt.fin (A r c)) h m q = (Flt.fin d, Flt.fin s) := by
  unfold stepSums
  apply foldl_inv (fun acc : Flt × Flt => ∃ d s : ℚ, 0 ≤ d ∧ 0 ≤ s ∧ acc = (Flt.fin d, Flt.fin s))
  · rintro acc k ⟨d, s, hd, hs, rfl⟩ _
    refine ⟨d + |A _ q + -A _ q|, s + A _ q, add_nonneg hd (abs_nonneg _),
      add_nonneg hs (hA _ _), rfl⟩
  · exact ⟨0, 0, le_refl 0, le_refl 0, rfl⟩

theorem obtainAciValue_nonnegOrNonFinite (A : Nat → Nat → ℚ) (hA : ∀ r c, 0 ≤ A r c)
    (h : WavHeader) (hsr : h.sampleRate ≠ 0) :
    ∃ v, obtainAciValue fltOps (fun r c => Flt.fin (A r c)) h = some v ∧
      v.NonnegOrNonFinite := by
  have hz : (Flt.fin 0).NonnegOrNonFinite := Or.inr (Or.inr ⟨0, le_refl 0, rfl⟩)
  have hstep : ∀ m q, (fltOps.div (stepSums fltOps (fun r c => Flt.fin (A r c)) h m q).1
      (stepSums fltOps (fun r c => Flt.fin (A r c)) h m q).2).NonnegOrNonFinite := by
    intro m q
    obtain ⟨d, s, hd, hs, hds⟩ := stepSums_fin_nonneg A hA h m q
    rw [hds]
    exact Flt.div_nonnegOrNonFinite d s hd hs
  have hinner : ∀ q, ((List.range (numTemporalStepsInRecording h)).foldl
      (fun aciTempStep m => fltOps.add aciTempStep
        (fltOps.div (stepSums fltOps (fun r c => Flt.fin (A r c)) h m q).1
          (stepSums fltOps (fun r c => Flt.fin (A r c)) h m q).2))
      fltOps.zero).NonnegOrNonFinite := by
    intro q
    apply foldl_inv Flt.NonnegOrNonFinite
    · intro aciTempStep m hS _
      exact Flt.add_nonnegOrNonFinite _ _ hS (hstep m q)
    · exact hz
  have houter : ((List.range NUM_BINS).foldl
      (fun aciTotal q => fltOps.add aciTotal
        ((List.range (numTemporalStepsInRecording h)).foldl
          (fun aciTempStep m => fltOps.add aciTempStep
            (fltOps.div (stepSums fltOps (fun r c => Flt.fin (A r c)) h m q).1
              (stepSums fltOps (fun r c => Flt.fin (A r c)) h m q).2))
          fltOps.zero))
      fltOps.zero).NonnegOrNonFinite := by
    apply foldl_inv Flt.NonnegOrNonFinite
    · intro aciTotal q hT _
      exact Flt.add_nonnegOrNonFinite _ _ hT (hinner q)
    · exact hz
  unfold obtainAciValue
  rw [if_neg hsr]
  exact ⟨_, rfl, houter⟩

theorem Flt.foldl_add_pinf (f : Nat → Flt) (l : List Nat) (hf : ∀ i ∈ l, f i = Flt.pinf) :
    ∀ a : Flt, (a = Flt.pinf ∨ ((∃ x, a = Flt.fin x) ∧ l ≠ [])) →
      l.foldl (fun acc i => Flt.add acc (f i)) a = Flt.pinf := by
  induction l with
  | nil =>
    intro a ha
    rcases ha with ha | ⟨_, hne⟩
    · exact ha
    · exact absurd rfl hne
  | cons x xs ih =>
    intro a ha
    rw [List.foldl_cons, hf x (List.mem_cons_self x xs)]
    apply ih (fun i hi => hf i (List.mem_cons_of_mem x hi))
    left
    rcases ha with ha | ⟨⟨y, hy⟩, _⟩
    · rw [ha]; rfl
    · rw [hy]; rfl

theorem obtainAciValue_nan_of_two_blocks (M : Nat → Nat → Flt) (h : WavHeader)
    (hsr : 0 < h.sampleRate) (hL : h.subchunk2Size < 2 ^ 32)
    (hB : numFftsInTemporalStep h = 2) (hN : 0 < numTemporalStepsInRecording h) :
    obtainAciValue fltOps M h = some Flt.nan := by
  rw [obtainAciValue_eq_code_constants fltOps M h hsr hL (by omega)]
  refine congrArg some ?_
  unfold specAci sumOver
  apply Flt.foldl_add_of_nan _ _ 0 (List.mem_range.2 (by decide))
  apply Flt.foldl_add_of_nan _ _ 0 (List.mem_range.2 hN)
  show Flt.div (specD _ _ _ _ _) (specS _ _ _ _ _) = _
  have h22 : 2 - 2 = 0 := rfl
  simp only [specD, specS, sumOver, hB, h22, List.range_zero, List.foldl_nil]
  exact Flt.div_zero_zero

/-! ## The cells the reducer loads -/

theorem mem_foldl_append {α β : Type} (f : α → List β) (l : List α) (x : β) :
    ∀ a : List β, x ∈ l.foldl (fun acc i => acc ++ f i) a ↔ x ∈ a ∨ ∃ i ∈ l, x ∈ f i := by
  induction l with
  | nil => intro a; simp
  | cons y ys ih =>
    intro a
    rw [List.foldl_cons, ih]
    constructor
    · rintro (h | ⟨i, hi, hx⟩)
      · rcases List.mem_append.1 h with h | h
        · exact Or.inl h
        · exact Or.inr ⟨y, List.mem_cons_self y ys, h⟩
      · exact Or.inr ⟨i, List.mem_cons_of_mem y hi, hx⟩
    · rintro (h | ⟨i, hi, hx⟩)
      · exact Or.inl (List.mem_append.2 (Or.inl h))
      · rcases List.mem_cons.1 hi with hi | hi
        · subst hi
          exact Or.inl (List.mem_append.2 (Or.inr hx))
        · exact Or.inr ⟨i, hi, hx⟩

theorem mem_sumOver_trace (n : Nat) (f : Nat → List (Nat × Nat)) (x : Nat × Nat) :
    x ∈ sumOver traceOps n f ↔ ∃ i, i < n ∧ x ∈ f i := by
  have h := mem_foldl_append f (List.range n) x []
  simp only [List.not_mem_nil, false_or, List.mem_range] at h
  exact h

theorem obtainAciValue_eq_sumOver {F : Type} (ops : FloatOps F) (M : Nat → Nat → F)
    (h : WavHeader) (hsr : h.sampleRate ≠ 0) :
    obtainAciValue ops M h =
      some (sumOver ops NUM_BINS fun q =>
        sumOver ops (numTemporalStepsInRecording h) fun m =>
          ops.div (stepSums ops M h m q).1 (stepSums ops M h m q).2) := by
  unfold obtainAciValue sumOver
  rw [if_neg hsr]

theorem mem_cellReads (h : WavHeader) (hsr : h.sampleRate ≠ 0) :
    ∃ l, cellReads h = some l ∧
      ∀ x, x ∈ l ↔ ∃ q m, q < NUM_BINS ∧ m < numTemporalStepsInRecording h ∧
        (x ∈ (stepSums traceOps (fun r c => [(r, c)]) h m q).1 ∨
          x ∈ (stepSums traceOps (fun r c => [(r, c)]) h m q).2) := by
  refine ⟨_, obtainAciValue_eq_sumOver traceOps _ h hsr, fun x => ?_⟩
  rw [mem_sumOver_trace]
  constructor
  · rintro ⟨q, hq, hx⟩
    rw [mem_sumOver_trace] at hx
    obtain ⟨m, hm, hx⟩ := hx
    exact ⟨q, m, hq, hm, List.mem_append.1 hx⟩
  · rintro ⟨q, m, hq, hm, hx⟩
    refine ⟨q, hq, ?_⟩
    rw [mem_sumOver_trace]
    exact ⟨m, hm, List.mem_append.2 hx⟩

theorem mem_specD_trace (B m q : Nat) (x : Nat × Nat) :
    x ∈ specD traceOps (fun r c => [(r, c)]) B m q ↔
      ∃ k, k < B - 2 ∧ (x = (m * B + k, q) ∨ x = (m * B + k + 1, q)) := by
  unfold specD
  rw [mem_sumOver_trace]
  simp only [traceOps, List.cons_append, List.nil_append, List.mem_cons, List.mem_singleton,
    List.not_mem_nil, or_false]

theorem mem_specS_trace (B m q : Nat) (x : Nat × Nat) :
    x ∈ specS traceOps (fun r c => [(r, c)]) B m q ↔
      ∃ k, k < B - 2 ∧ x = (m * B + k, q) := by
  unfold specS
  rw [mem_sumOver_trace]
  simp only [List.mem_singleton]

theorem step_rows_le (h : WavHeader) (m : Nat) (hm : m < numTemporalStepsInRecording h) :
    (m + 1) * numFftsInTemporalStep h ≤ h.subchunk2Size / FFT_N := by
  have h1 : (m + 1) * numFftsInTemporalStep h ≤
      numTemporalStepsInRecording h * (TEMPORAL_STEP * h.sampleRate / FFT_N) :=
    Nat.mul_le_mul hm (numFftsInTemporalStep_le h)
  have h2 : numTemporalStepsInRecording h * (TEMPORAL_STEP * h.sampleRate / FFT_N) ≤
      numTemporalStepsInRecording h * (TEMPORAL_STEP * h.sampleRate) / FFT_N :=
    Nat.mul_div_le_mul_div_assoc _ _ _
  have h3 : numTemporalStepsInRecording h * (TEMPORAL_STEP * h.sampleRate) / FFT_N ≤
      h.subchunk2Size / FFT_N := Nat.div_le_div_right (steps_mul_le h)
  omega

/-- The first temporal step: the innermost loop runs over `k` below the wrapped bound
and loads rows `k` and `k + 1`. -/
theorem stepSums_first_step {F : Type} (ops : FloatOps F) (M : Nat → Nat → F)
    (h : WavHeader) (q : Nat) :
    stepSums ops M h 0 q =
      (sumOver ops ((numFftsInTemporalStep h + UINT_MOD - 2) % UINT_MOD) (fun k =>
          ops.fabs (ops.sub (M k q) (M (k + 1) q))),
        sumOver ops ((numFftsInTemporalStep h + UINT_MOD - 2) % UINT_MOD) (fun k => M k q)) := by
  have hconv : toSizeT (toInt32 (0 * numFftsInTemporalStep h % SIZE_MOD)) = 0 := by
    rw [Nat.zero_mul]
    exact toSizeT_toInt32 0 (by decide)
  unfold stepSums sumOver
  simp only [hconv, Nat.zero_add]
  rw [← foldl_pair (fun (acc : F) k => ops.add acc (ops.fabs (ops.sub (M k q) (M (k + 1) q))))
      (fun (acc : F) k => ops.add acc (M k q))]
  apply List.foldl_ext
  intro acc k hk
  have hk' : k < (numFftsInTemporalStep h + UINT_MOD - 2) % UINT_MOD := List.mem_range.1 hk
  have hk2 : k < UINT_MOD := lt_trans hk' (Nat.mod_lt _ (by decide))
  have e0 : k % SIZE_MOD = k := Nat.mod_eq_of_lt (by unfold SIZE_MOD; unfold UINT_MOD at hk2; omega)
  have e1 : (k + 1) % SIZE_MOD = k + 1 :=
    Nat.mod_eq_of_lt (by unfold SIZE_MOD; unfold UINT_MOD at hk2; omega)
  simp only [e0, e1]

theorem understatedFile_length : understatedFile.length = 1544 := by
  simp only [understatedFile, encodeWavHeader, encode32, encode16, pcmHeader,
    List.length_append, List.length_cons, List.length_nil, List.length_replicate]

theorem populate_exact_file_success {F : Type} (env : FftEnv F) (fftAlloc : Nat → Bool)
    (fs : FileSystem) (g : Globals) (stack : Nat → Byte) (h : WavHeader) (M : Matrix F)
    (file : List Byte) (hf : fs g.wavFilePath = some file)
    (h1 : FFT_N ≤ h.subchunk2Size) (h2 : h.subchunk2Size < 2 ^ 32)
    (hlen : file.length = sizeofWavHeader + h.subchunk2Size)
    (halloc : ∀ i, fftAlloc i = true) :
    populateMagnitudeMatrix env fftAlloc fs g stack h M =
      { rc := 0
        cell := cellAfter env file stack M.cell (h.subchunk2Size / FFT_N - 1)
        calls := (List.range (h.subchunk2Size / FFT_N - 1)).map fun i =>
          (i + 1, blockSamples file stack i) } := by
  have hb := loopBound_eq h h1 h2
  have := populateMagnitudeMatrix_success env fftAlloc fs g stack h M file hf
    (by rw [hb, hlen]; unfold FFT_N; omega) (fun i _ => halloc i)
  rw [hb] at this
  exact this

theorem sumOver_ones (n : Nat) :
    sumOver fltOps n (fun k => onesMatrix k 0) = Flt.fin n := by
  unfold sumOver
  have h := Flt.foldl_add_fin (fun k => onesMatrix k 0) 1 (List.range n) (fun _ _ => rfl) 0
  rw [List.length_range] at h
  have hq : (0 : ℚ) + (n : ℚ) * 1 = n := by ring
  rw [hq] at h
  exact h

/-! ## Runs in which every load and store stays inside the matrix -/

/-- C1 (the code at the failing input). For the 16-bit recording with 4096 data bytes
the header parses, `populateMagnitudeMatrix` succeeds and calls the transform three
times, writing rows 1, 2 and 3, whereas `floor(4096 / (1024 * 2)) - 1` is 1. -/
theorem populate_three_rows_for_4096_bytes :
    ∀ (F : Type) (env : FftEnv F) (stack : Nat → Byte) (M : Matrix F),
      (obtainWavHeader (oneFile (silentFile 8000 4096)) recGlobals).wavHeader =
          some (pcmHeader 8000 4096) ∧
      (populateMagnitudeMatrix env (fun _ => true) (oneFile (silentFile 8000 4096)) recGlobals
          stack (pcmHeader 8000 4096) M).rc = 0 ∧
      (populateMagnitudeMatrix env (fun _ => true) (oneFile (silentFile 8000 4096)) recGlobals
          stack (pcmHeader 8000 4096) M).calls.length = 3 ∧
      (populateMagnitudeMatrix env (fun _ => true) (oneFile (silentFile 8000 4096)) recGlobals
          stack (pcmHeader 8000 4096) M).calls.map Prod.fst = [1, 2, 3] ∧
      (pcmHeader 8000 4096).subchunk2Size / (FFT_N * 2) - 1 = 1 := by
  intro F env stack M
  have hb : loopBound (pcmHeader 8000 4096) = 3 := by decide
  rw [obtainWavHeader_silentFile_any recGlobals 8000 4096 (by decide) (by decide),
    populate_silentFile_any env recGlobals stack M 8000 4096 (by rw [hb]; decide)]
  rw [hb]
  exact ⟨rfl, rfl, rfl, rfl, by decide⟩

/-- C2. For every header with `sampleRate > 0` whose
`B = floor(5 * sampleRate / 1024)` is at least 2, and every matrix, `obtainAciValue`
returns the sum over the bins `q` in `[0, 512]` and the temporal steps `m` in
`[0, floor(floor(dataByteLength / sampleRate) / 5))` of `D / S`, with `D` and `S` the
sums over `k` in `[0, B - 2)` from `start = m * B`, without normalisation; sums are
accumulated in index order from zero, for any arithmetic of `float`. -/
theorem obtainAciValue_is_sum_of_ratios {F : Type} (ops : FloatOps F) (M : Nat → Nat → F)
    (h : WavHeader) (hsr : 0 < h.sampleRate) (hL : h.subchunk2Size < 2 ^ 32)
    (hB : 2 ≤ TEMPORAL_STEP * h.sampleRate / FFT_N) :
    obtainAciValue ops M h =
      some (specAci ops M (TEMPORAL_STEP * h.sampleRate / FFT_N)
        (h.subchunk2Size / h.sampleRate / TEMPORAL_STEP)) := by
  by_cases hw : TEMPORAL_STEP * h.sampleRate < 2 ^ 32
  · have hcode : numFftsInTemporalStep h = TEMPORAL_STEP * h.sampleRate / FFT_N := by
      unfold numFftsInTemporalStep UINT_MOD
      rw [Nat.mod_eq_of_lt hw]
    have := obtainAciValue_eq_code_constants ops M h hsr hL (by rw [hcode]; exact hB)
    rw [hcode] at this
    exact this
  · have hN := no_steps_of_wrap h hL (by omega)
    have := obtainAciValue_no_steps ops M h hsr hN (TEMPORAL_STEP * h.sampleRate / FFT_N)
    unfold numTemporalStepsInRecording at hN
    rw [hN]
    exact this

/-- C2 at a concrete input: the 8000 Hz header with 160000 data bytes and the zero
matrix. -/
theorem obtainAciValue_is_sum_of_ratios_witness :
    obtainAciValue fltOps zeroMatrix (pcmHeader 8000 160000) =
      some (specAci fltOps zeroMatrix 39 4) :=
  obtainAciValue_is_sum_of_ratios fltOps zeroMatrix (pcmHeader 8000 160000)
    (by decide) (by decide) (by decide)

/-- C3 (the claim fails at a concrete input). For the well-formed header with
`sampleRate = 858993460` the product `5 * sampleRate` wraps to 4 in `unsigned int`,
so `numFftsInTemporalStep` is 0, not `floor(5 * 858993460 / 1024) = 4194304`. -/
theorem numFftsInTemporalStep_wraps :
    (pcmHeader 858993460 0).wf ∧ 0 < (pcmHeader 858993460 0).sampleRate ∧
      numFftsInTemporalStep (pcmHeader 858993460 0) = 0 ∧
      TEMPORAL_STEP * (pcmHeader 858993460 0).sampleRate / FFT_N = 4194304 ∧
      numFftsInTemporalStep (pcmHeader 858993460 0) ≠
        TEMPORAL_STEP * (pcmHeader 858993460 0).sampleRate / FFT_N := by
  decide

/-- C3 (amended). For every `sampleRate > 0` with `5 * sampleRate < 2 ^ 32` and every
data length, `obtainAciValue` does not trap and the constants it computes are
`numFftsInTemporalStep = floor(5 * sampleRate / 1024)` and
`numTemporalStepsInRecording = floor(floor(dataByteLength / sampleRate) / 5)`. -/
theorem reducer_constants (h : WavHeader) (hsr : 0 < h.sampleRate)
    (hw : 5 * h.sampleRate < 2 ^ 32) :
    numFftsInTemporalStep h = 5 * h.sampleRate / 1024 ∧
    numTemporalStepsInRecording h = h.subchunk2Size / h.sampleRate / 5 ∧
    (∀ (F : Type) (ops : FloatOps F) (M : Nat → Nat → F),
      (obtainAciValue ops M h).isSome = true) := by
  refine ⟨?_, rfl, fun F ops M => obtainAciValue_isSome ops M h hsr⟩
  unfold numFftsInTemporalStep UINT_MOD TEMPORAL_STEP
  rw [Nat.mod_eq_of_lt hw]
  rfl

/-- C3 (amended) at a concrete input: 8000 Hz and 160000 data bytes give 39 blocks per
temporal step and 4 temporal steps. -/
theorem reducer_constants_witness :
    numFftsInTemporalStep (pcmHeader 8000 160000) = 39 ∧
      numTemporalStepsInRecording (pcmHeader 8000 160000) = 4 :=
  ⟨(reducer_constants (pcmHeader 8000 160000) (by decide) (by decide)).1,
    (reducer_constants (pcmHeader 8000 160000) (by decide) (by decide)).2.1⟩

/-- C4 (the code at the failing input). The silent 8000 Hz 16-bit mono recording of
10 seconds parses with `sampleRate = 8000` and 160000 data bytes; `obtainAciValue`
uses 4 temporal steps (of 39 blocks), not 2; the run calls the transform 155 times,
prints an ACI line and exits with status 0, with no boundary flag; and over a matrix
of zero magnitudes the value is NaN, not 0. -/
theorem silent_ten_seconds_gives_four_steps :
    (obtainWavHeader (oneFile (silentFile 8000 160000)) recGlobals).rc = 0 ∧
    (obtainWavHeader (oneFile (silentFile 8000 160000)) recGlobals).wavHeader =
      some (pcmHeader 8000 160000) ∧
    (pcmHeader 8000 160000).sampleRate = 8000 ∧
    (pcmHeader 8000 160000).subchunk2Size = 160000 ∧
    numTemporalStepsInRecording (pcmHeader 8000 160000) = 4 ∧
    numFftsInTemporalStep (pcmHeader 8000 160000) = 39 ∧
    (∀ (F : Type) (env : FftEnv F) (garbage : Nat → Nat → F) (stack : Nat → Byte),
      ∃ v, main env (fun _ => true) { tableOk := true, garbage := garbage } stack
          (oneFile (silentFile 8000 160000)) [CmdOpt.f "rec.wav"] =
        { exit := some 0
          stages := [Stage.obtainWavHeader, Stage.createMagnitudeMatrix,
            Stage.populateMagnitudeMatrix, Stage.obtainAciValue,
            Stage.destroyMagnitudeMatrix]
          fftCalls := 155
          aciLine := some v }) ∧
    obtainAciValue fltOps zeroMatrix (pcmHeader 8000 160000) = some Flt.nan := by
  have hb : loopBound (pcmHeader 8000 160000) = 155 := by decide
  refine ⟨?_, ?_, rfl, rfl, by decide, by decide, ?_, ?_⟩
  · rw [obtainWavHeader_silentFile_any recGlobals 8000 160000 (by decide) (by decide)]
  · rw [obtainWavHeader_silentFile_any recGlobals 8000 160000 (by decide) (by decide)]
  · intro F env garbage stack
    obtain ⟨v, _, hv⟩ := main_silentFile env garbage stack "rec.wav" 8000 160000 (by decide)
      (by decide) (by decide) (by rw [hb]; decide)
    rw [hb] at hv
    exact ⟨v, hv⟩
  · exact (obtainAciValue_nan_of_zero_step zeroMatrix (pcmHeader 8000 160000) (by decide)
      (by decide) (by decide) 0 0 (by decide) (by decide) (fun _ _ _ => rfl)).2.2

/-- C5. For every file content, `obtainWavHeader` returns -1 exactly when the file
holds fewer than 44 bytes or its first 4 bytes are not "RIFF" (and returns 0
otherwise); in particular every file whose first 4 bytes differ from "RIFF" is
rejected; and when the header is rejected `main` exits with status -1 without
calling `createMagnitudeMatrix`, `populateMagnitudeMatrix`, the transform or
`obtainAciValue`, and prints no ACI line. -/
theorem obtainWavHeader_rejects_iff_short_or_not_riff :
    (∀ (fs : FileSystem) (g : Globals) (file : List Byte), fs g.wavFilePath = some file →
      ((obtainWavHeader fs g).rc = -1 ↔
        (file.length < 44 ∨ file.take 4 ≠ [82, 73, 70, 70])) ∧
      ((obtainWavHeader fs g).rc = -1 ∨ (obtainWavHeader fs g).rc = 0)) ∧
    (∀ (fs : FileSystem) (g : Globals) (file : List Byte), fs g.wavFilePath = some file →
      file.take 4 ≠ [82, 73, 70, 70] → (obtainWavHeader fs g).rc = -1) ∧
    (∀ (F : Type) (env : FftEnv F) (fftAlloc : Nat → Bool) (heap : Heap F)
        (stack : Nat → Byte) (fs : FileSystem) (opts : List CmdOpt),
      (obtainWavHeader fs (processCmdline opts).2).rc ≠ 0 →
      (main env fftAlloc heap stack fs opts).exit = some (-1) ∧
      (main env fftAlloc heap stack fs opts).fftCalls = 0 ∧
      (main env fftAlloc heap stack fs opts).aciLine = none ∧
      Stage.createMagnitudeMatrix ∉ (main env fftAlloc heap stack fs opts).stages ∧
      Stage.populateMagnitudeMatrix ∉ (main env fftAlloc heap stack fs opts).stages ∧
      Stage.obtainAciValue ∉ (main env fftAlloc heap stack fs opts).stages) := by
  refine ⟨?_, ?_, ?_⟩
  · intro fs g file hf
    refine ⟨obtainWavHeader_rc_iff fs g file hf, ?_⟩
    by_cases hlen : file.length < 44
    · left
      rw [obtainWavHeader_short fs g file hf hlen]
    · by_cases hm : file.take 4 = [82, 73, 70, 70]
      · right
        rw [obtainWavHeader_ok fs g file hf (by omega) hm]
      · left
        rw [obtainWavHeader_badMarker fs g file hf (by omega) hm]
  · intro fs g file hf hm
    exact (obtainWavHeader_rc_iff fs g file hf).2 (Or.inr hm)
  · intro F env fftAlloc heap stack fs opts hrc
    rcases main_header_rejected env fftAlloc heap stack fs opts hrc with h | h
    · rw [h]
      simp
    · rw [h]
      simp

/-- C5 at concrete inputs: a 3-byte file and a 44-byte file of zeros are rejected. -/
theorem obtainWavHeader_rejects_iff_short_or_not_riff_witness :
    (obtainWavHeader (oneFile [1, 2, 3]) recGlobals).rc = -1 ∧
    (obtainWavHeader (oneFile (List.replicate 44 0)) recGlobals).rc = -1 :=
  ⟨((obtainWavHeader_rejects_iff_short_or_not_riff.1 (oneFile [1, 2, 3]) recGlobals [1, 2, 3]
      rfl).1).2 (Or.inl (by decide)),
    obtainWavHeader_rejects_iff_short_or_not_riff.2.1 (oneFile (List.replicate 44 0))
      recGlobals (List.replicate 44 0) rfl (by decide)⟩

/-- C6. Header round trip: for every choice of field values that fit their C types,
with `chunkId` = "RIFF", the canonical little-endian encoding has 44 bytes, and
`obtainWavHeader` on a file that starts with it succeeds with a `WavHeader` equal,
field by field, to the values encoded. -/
theorem header_round_trip (h : WavHeader) (hwf : h.wf)
    (hid : h.chunkId = [82, 73, 70, 70]) (fs : FileSystem) (g : Globals) (rest : List Byte)
    (hf : fs g.wavFilePath = some (encodeWavHeader h ++ rest)) :
    (encodeWavHeader h).length = 44 ∧
    obtainWavHeader fs g =
      { rc := 0, wavHeader := some h, dumped := g.dumpWavHeader } := by
  have hlen : (encodeWavHeader h).length = 44 := by
    obtain ⟨h1, h2, h3, h4, _⟩ := hwf
    simp only [encodeWavHeader, encode32, encode16, List.length_append, List.length_cons,
      List.length_nil, h1, h2, h3, h4]
  have htake : (encodeWavHeader h ++ rest).take 4 = [82, 73, 70, 70] := by
    have h4 : h.chunkId.length = 4 := by rw [hid]; rfl
    simp only [encodeWavHeader, List.append_assoc]
    rw [List.take_append_of_le_length (by omega), ← h4, List.take_length, hid]
  refine ⟨hlen, ?_⟩
  rw [obtainWavHeader_ok fs g _ hf (by rw [List.length_append]; omega) htake,
    overlay_encode h hwf rest]

/-- C6 at a concrete input: the 8000 Hz 16-bit mono header with 160000 data bytes. -/
theorem header_round_trip_witness :
    (encodeWavHeader (pcmHeader 8000 160000)).length = 44 ∧
    obtainWavHeader (oneFile (silentFile 8000 160000)) recGlobals =
      { rc := 0, wavHeader := some (pcmHeader 8000 160000), dumped := false } :=
  header_round_trip (pcmHeader 8000 160000) (by decide) rfl
    (oneFile (silentFile 8000 160000)) recGlobals (List.replicate 160000 0) rfl

/-- C7 (the code at the failing input). For the recording with 3072 data bytes the
build succeeds with two transform calls; their spectra are stored in rows 1 and 2,
and row 0 keeps whatever `malloc` returned: row `i + 1`, not row `i`, holds the
spectrum of the `i`-th block read. -/
theorem first_block_spectrum_lands_in_row_one :
    ∀ (F : Type) (env : FftEnv F) (stack : Nat → Byte) (M : Matrix F),
      (populateMagnitudeMatrix env (fun _ => true) (oneFile (silentFile 8000 3072)) recGlobals
          stack (pcmHeader 8000 3072) M).rc = 0 ∧
      (populateMagnitudeMatrix env (fun _ => true) (oneFile (silentFile 8000 3072)) recGlobals
          stack (pcmHeader 8000 3072) M).calls =
        [(1, blockSamples (silentFile 8000 3072) stack 0),
         (2, blockSamples (silentFile 8000 3072) stack 1)] ∧
      (∀ c, (populateMagnitudeMatrix env (fun _ => true) (oneFile (silentFile 8000 3072))
          recGlobals stack (pcmHeader 8000 3072) M).cell 0 c = M.cell 0 c) ∧
      (∀ c, c < NUM_BINS →
        (spectrumOf env (blockSamples (silentFile 8000 3072) stack 0))[c]? =
          some ((populateMagnitudeMatrix env (fun _ => true) (oneFile (silentFile 8000 3072))
            recGlobals stack (pcmHeader 8000 3072) M).cell 1 c)) ∧
      (∀ c, c < NUM_BINS →
        (spectrumOf env (blockSamples (silentFile 8000 3072) stack 1))[c]? =
          some ((populateMagnitudeMatrix env (fun _ => true) (oneFile (silentFile 8000 3072))
            recGlobals stack (pcmHeader 8000 3072) M).cell 2 c)) := by
  intro F env stack M
  have hb : loopBound (pcmHeader 8000 3072) = 2 := by decide
  rw [populate_silentFile_any env recGlobals stack M 8000 3072 (by rw [hb]; decide), hb]
  dsimp only
  refine ⟨rfl, rfl, ?_, ?_, ?_⟩
  · intro c
    exact cellAfter_untouched env (silentFile 8000 3072) stack M.cell 2 0 c (Or.inl rfl)
  · intro c hc
    have h := cellAfter_written env (silentFile 8000 3072) stack M.cell 2 1 c (Nat.le_refl 1)
      (Nat.le_succ 1) hc
    rw [Nat.sub_self] at h
    exact h
  · intro c hc
    have h := cellAfter_written env (silentFile 8000 3072) stack M.cell 2 2 c (Nat.le_succ 1)
      (Nat.le_refl 2) hc
    rw [show 2 - 1 = 1 from rfl] at h
    exact h

/-- C8 (the code at the failing input). For the recording with 3072 data bytes the
two transform calls receive stream samples [0, 512) and [512, 1024) in the first
half of the array; the second half, `samples[512..1023]`, is the content the stack
array had on entry. With a stack of bytes 1 the first call's block differs from
samples [0, 1024) of the stream. -/
theorem transform_block_is_half_file_half_stack :
    (∀ (F : Type) (env : FftEnv F) (stack : Nat → Byte) (M : Matrix F),
      (populateMagnitudeMatrix env (fun _ => true) (oneFile (silentFile 8000 3072)) recGlobals
          stack (pcmHeader 8000 3072) M).calls =
        [(1, (List.range 512).map (fun k => streamSample (silentFile 8000 3072) k) ++
              (List.range 512).map (fun k => int16At stack (512 + k))),
         (2, (List.range 512).map (fun k => streamSample (silentFile 8000 3072) (512 + k)) ++
              (List.range 512).map (fun k => int16At stack (512 + k)))]) ∧
    (∀ (F : Type) (env : FftEnv F) (M : Matrix F),
      ((populateMagnitudeMatrix env (fun _ => true) (oneFile (silentFile 8000 3072)) recGlobals
          (fun _ => 1) (pcmHeader 8000 3072) M).calls.map Prod.snd)[0]? ≠
        some ((List.range FFT_N).map (fun k => streamSample (silentFile 8000 3072) k))) := by
  have hb : loopBound (pcmHeader 8000 3072) = 2 := by decide
  have hcalls : ∀ (F : Type) (env : FftEnv F) (stack : Nat → Byte) (M : Matrix F),
      (populateMagnitudeMatrix env (fun _ => true) (oneFile (silentFile 8000 3072)) recGlobals
          stack (pcmHeader 8000 3072) M).calls =
        [(1, (List.range 512).map (fun k => streamSample (silentFile 8000 3072) k) ++
              (List.range 512).map (fun k => int16At stack (512 + k))),
         (2, (List.range 512).map (fun k => streamSample (silentFile 8000 3072) (512 + k)) ++
              (List.range 512).map (fun k => int16At stack (512 + k)))] := by
    intro F env stack M
    rw [populate_silentFile_any env recGlobals stack M 8000 3072 (by rw [hb]; decide), hb]
    have e0 := blockSamples_split (silentFile 8000 3072) stack 0
      (silentFile_blockBytes_length 8000 3072 0 (by decide))
    have e1 := blockSamples_split (silentFile 8000 3072) stack 1
      (silentFile_blockBytes_length 8000 3072 1 (by decide))
    simp only [Nat.mul_zero, Nat.zero_add, Nat.mul_one] at e0 e1
    show [(0 + 1, blockSamples (silentFile 8000 3072) stack 0),
      (1 + 1, blockSamples (silentFile 8000 3072) stack 1)] = _
    rw [e0, e1]
  refine ⟨hcalls, ?_⟩
  intro F env M heq
  rw [hcalls F env (fun _ => 1) M] at heq
  simp only [List.map_cons, List.getElem?_cons_zero, Option.some.injEq] at heq
  have h512 := congrArg (fun l => l[512]?) heq
  simp only [] at h512
  rw [List.getElem?_append_right (by rw [List.length_map, List.length_range]),
    List.length_map, List.length_range, Nat.sub_self,
    getElem?_map_range _ 512 0 (by decide), getElem?_map_range _ FFT_N 512 (by decide),
    streamSample_silentFile] at h512
  revert h512
  decide

/-- C9 (the code on the inputs of the claim). When the rows of temporal step `m` hold
zero in bin `q`, the sum `S` of that step and bin is 0, the step's contribution is
the quotient `0 / 0` = NaN (no guard intervenes, nothing is raised, the contribution
is not 0), and the value `obtainAciValue` returns is NaN, whatever the rest of the
matrix holds. -/
theorem zero_step_makes_aci_nan (M : Nat → Nat → Flt) (h : WavHeader)
    (hsr : 0 < h.sampleRate) (hL : h.subchunk2Size < 2 ^ 32)
    (hB : 2 ≤ numFftsInTemporalStep h) (m q : Nat)
    (hm : m < numTemporalStepsInRecording h) (hq : q < NUM_BINS)
    (hzero : ∀ r, m * numFftsInTemporalStep h ≤ r →
      r < m * numFftsInTemporalStep h + numFftsInTemporalStep h → M r q = Flt.fin 0) :
    (stepSums fltOps M h m q).2 = Flt.fin 0 ∧
    Flt.div (stepSums fltOps M h m q).1 (stepSums fltOps M h m q).2 = Flt.nan ∧
    obtainAciValue fltOps M h = some Flt.nan ∧
    Flt.isFinite Flt.nan = false :=
  ⟨(obtainAciValue_nan_of_zero_step M h hsr hL hB m q hm hq hzero).1,
    (obtainAciValue_nan_of_zero_step M h hsr hL hB m q hm hq hzero).2.1,
    (obtainAciValue_nan_of_zero_step M h hsr hL hB m q hm hq hzero).2.2, rfl⟩

/-- C9 at a concrete input: the zero matrix and the 8000 Hz header with 160000 data
bytes; the ACI returned is NaN. -/
theorem zero_step_makes_aci_nan_witness :
    obtainAciValue fltOps zeroMatrix (pcmHeader 8000 160000) = some Flt.nan :=
  (zero_step_makes_aci_nan zeroMatrix (pcmHeader 8000 160000) (by decide) (by decide)
    (by decide) 0 0 (by decide) (by decide) (fun _ _ _ => rfl)).2.2.1

/-- C10 (the code at the failing input). For the recording with sample rate 700 and
3500 data bytes (three blocks per temporal step, one step): the ACI that `main`
prints is a function of row 0 as `malloc` returned it (`garbage 0 q`) and of the
spectrum of the first transform call; the block of that call holds, in
`samples[512..1023]`, the content the stack array had on entry; and two matrices that
differ only in the never-written row 0 have different ACI values (0 and 513/2). -/
theorem aci_depends_on_uninitialised_memory :
    (∀ (F : Type) (env : FftEnv F) (garbage : Nat → Nat → F) (stack : Nat → Byte),
      (main env (fun _ => true) { tableOk := true, garbage := garbage } stack
          (oneFile (silentFile 700 3500)) [CmdOpt.f "rec.wav"]).aciLine =
        some (sumOver env.toFloatOps NUM_BINS fun q =>
          env.add env.zero
            (env.div
              (env.add env.zero (env.fabs (env.sub (garbage 0 q)
                ((spectrumOf env (blockSamples (silentFile 700 3500) stack 0)).getD q
                  env.zero))))
              (env.add env.zero (garbage 0 q))))) ∧
    (∀ stack : Nat → Byte,
      blockSamples (silentFile 700 3500) stack 0 =
        (List.range 512).map (fun _ => 0) ++
          (List.range 512).map (fun k => int16At stack (512 + k))) ∧
    obtainAciValue fltOps (fun _ _ => Flt.fin 1) (pcmHeader 700 3500) = some (Flt.fin 0) ∧
    obtainAciValue fltOps (fun r _ => if r = 0 then Flt.fin 2 else Flt.fin 1)
      (pcmHeader 700 3500) = some (Flt.fin (513 / 2)) ∧
    (Flt.fin 0 ≠ Flt.fin (513 / 2)) := by
  have hb : loopBound (pcmHeader 700 3500) = 2 := by decide
  have hB : numFftsInTemporalStep (pcmHeader 700 3500) = 3 := by decide
  have hN : numTemporalStepsInRecording (pcmHeader 700 3500) = 1 := by decide
  refine ⟨?_, ?_, ?_, ?_, by intro h; injection h with h; norm_num at h⟩
  · intro F env garbage stack
    have haci := obtainAciValue_three_one env.toFloatOps
      (cellAfter env (silentFile 700 3500) stack garbage 2) (pcmHeader 700 3500)
      (by decide) (by decide) hB hN
    have hm := main_success env (fun _ => true) { tableOk := true, garbage := garbage } stack
      (oneFile (silentFile 700 3500)) [CmdOpt.f "rec.wav"] (pcmHeader 700 3500) _ _ _ _ rfl
      (obtainWavHeader_silentFile_any _ 700 3500 (by decide) (by decide)) rfl
      (by
        have := populate_silentFile_any env (processCmdline [CmdOpt.f "rec.wav"]).2 stack
          { numRows := (pcmHeader 700 3500).subchunk2Size / FFT_N % UINT_MOD, cell := garbage }
          700 3500 (by rw [hb]; decide)
        rw [hb] at this
        exact this) haci
    rw [hm]
    refine congrArg some ?_
    unfold sumOver
    apply List.foldl_ext
    intro acc q hq
    have hq' : q < NUM_BINS := List.mem_range.1 hq
    have h0 := cellAfter_untouched env (silentFile 700 3500) stack garbage 2 0 q (Or.inl rfl)
    have h1 := cellAfter_written env (silentFile 700 3500) stack garbage 2 1 q (Nat.le_refl 1)
      (Nat.le_succ 1) hq'
    rw [Nat.sub_self] at h1
    have h1' : (spectrumOf env (blockSamples (silentFile 700 3500) stack 0)).getD q env.zero =
        cellAfter env (silentFile 700 3500) stack garbage 2 1 q := by
      rw [List.getD_eq_getElem?_getD, h1, Option.getD_some]
    simp only [h0, h1']
  · intro stack
    rw [blockSamples_split _ stack 0 (silentFile_blockBytes_length 700 3500 0 (by decide))]
    simp only [streamSample_silentFile]
  · rw [obtainAciValue_three_one fltOps _ (pcmHeader 700 3500) (by decide) (by decide) hB hN]
    refine congrArg some ?_
    unfold sumOver
    have := Flt.foldl_add_fin (fun q => fltOps.add fltOps.zero
        (fltOps.div (fltOps.add fltOps.zero (fltOps.fabs (fltOps.sub (Flt.fin 1) (Flt.fin 1))))
          (fltOps.add fltOps.zero (Flt.fin 1)))) 0 (List.range NUM_BINS)
      (fun i _ => by
        simp [fltOps, Flt.add, Flt.sub, Flt.neg, Flt.fabs, Flt.div]) 0
    rw [List.length_range] at this
    simpa [fltOps] using this
  · rw [obtainAciValue_three_one fltOps _ (pcmHeader 700 3500) (by decide) (by decide) hB hN]
    refine congrArg some ?_
    unfold sumOver
    have := Flt.foldl_add_fin (fun q => fltOps.add fltOps.zero
        (fltOps.div (fltOps.add fltOps.zero (fltOps.fabs (fltOps.sub (Flt.fin 2) (Flt.fin 1))))
          (fltOps.add fltOps.zero (Flt.fin 2)))) (1 / 2) (List.range NUM_BINS)
      (fun i _ => by
        simp [fltOps, Flt.add, Flt.sub, Flt.neg, Flt.fabs, Flt.div]
        norm_num) 0
    rw [List.length_range] at this
    have hn : (0 : ℚ) + (NUM_BINS : ℚ) * (1 / 2) = 513 / 2 := by
      unfold NUM_BINS FFT_N
      norm_num
    rw [hn] at this
    simpa [fltOps] using this

/-- C11. If the read of block `j` in `populateMagnitudeMatrix` returns fewer bytes than
requested (the earlier reads and transforms having succeeded), then
`populateMagnitudeMatrix` returns -1, the transform has been called for the `j`
earlier blocks only, the file position stays right after the short read (no further
block is read or processed), and `main` exits with status -1 without calling
`obtainAciValue` and prints no ACI line. -/
theorem short_read_aborts_build {F : Type} (env : FftEnv F) (fftAlloc : Nat → Bool)
    (heap : Heap F) (stack : Nat → Byte) (fs : FileSystem) (opts : List CmdOpt)
    (h : WavHeader) (file : List Byte) (j : Nat)
    (hf : fs (processCmdline opts).2.wavFilePath = some file)
    (hj : j < loopBound h)
    (hfull : ∀ i < j, (blockBytes file i).length = FFT_N)
    (hshort : (blockBytes file j).length ≠ FFT_N)
    (halloc : ∀ i < j, fftAlloc i = true) :
    (∀ M : Matrix F,
      (populateMagnitudeMatrix env fftAlloc fs (processCmdline opts).2 stack h M).rc = -1 ∧
      (populateMagnitudeMatrix env fftAlloc fs (processCmdline opts).2 stack h M).calls =
        (List.range j).map (fun i => (i + 1, blockSamples file stack i)) ∧
      (populateLoop env fftAlloc h file UINT_MOD
        ⟨0, sizeofWavHeader, stack, M.cell, 0, []⟩).pos =
          sizeofWavHeader + FFT_N * j + (blockBytes file j).length) ∧
    ((processCmdline opts).1 = 0 →
      (obtainWavHeader fs (processCmdline opts).2).rc = 0 →
      (obtainWavHeader fs (processCmdline opts).2).wavHeader = some h →
      heap.tableOk = true →
      main env fftAlloc heap stack fs opts =
        { exit := some (-1)
          stages := [Stage.obtainWavHeader, Stage.createMagnitudeMatrix,
            Stage.populateMagnitudeMatrix, Stage.destroyMagnitudeMatrix]
          fftCalls := j
          aciLine := none }) := by
  have hpop := fun M : Matrix F => populateMagnitudeMatrix_short_read env fftAlloc fs
    (processCmdline opts).2 stack h M file j hf hj hfull hshort halloc
  refine ⟨fun M => ⟨by rw [hpop M], by rw [hpop M], ?_⟩, ?_⟩
  · have h0 : popAfter env file stack M.cell 0 =
        ⟨0, sizeofWavHeader, stack, M.cell, 0, []⟩ := by
      simp [popAfter, cellAfter]
    rw [← h0, populateLoop_first_short_read env fftAlloc h file stack M.cell j hj hfull
      hshort halloc UINT_MOD (by have := loopBound_lt h; omega)]
  · intro hcmd hrc hh hheap
    have hcreate : createMagnitudeMatrix heap h =
        some { numRows := (h.subchunk2Size / FFT_N) % UINT_MOD, cell := heap.garbage } := by
      simp [createMagnitudeMatrix, hheap]
    rw [main_populate_failed env fftAlloc heap stack fs opts h _ hcmd hrc hh hcreate
      (by rw [hpop]; show (-1 : Int) ≠ 0; decide), hpop]
    simp

/-- C11 at a concrete input: the header announces 4096 data bytes and 1500 follow, so
the second read (block 1) gets 476 bytes; the build fails after one transform call
and `main` prints nothing. -/
theorem short_read_aborts_build_witness :
    (blockBytes truncatedFile 1).length = 476 ∧
    ∀ (F : Type) (env : FftEnv F) (garbage : Nat → Nat → F) (stack : Nat → Byte),
      main env (fun _ => true) { tableOk := true, garbage := garbage } stack
          (oneFile truncatedFile) [CmdOpt.f "rec.wav"] =
        { exit := some (-1)
          stages := [Stage.obtainWavHeader, Stage.createMagnitudeMatrix,
            Stage.populateMagnitudeMatrix, Stage.destroyMagnitudeMatrix]
          fftCalls := 1
          aciLine := none } := by
  have hlen1 : (blockBytes truncatedFile 1).length = 476 := by
    rw [blockBytes_length_eq, truncatedFile_length]
    decide
  have hhdr : ∀ g : Globals, obtainWavHeader (oneFile truncatedFile) g =
      { rc := 0, wavHeader := some (pcmHeader 8000 4096), dumped := g.dumpWavHeader } :=
    fun g => obtainWavHeader_encoded (pcmHeader 8000 4096)
      (pcmHeader_wf 8000 4096 (by decide) (by decide)) rfl _ g (List.replicate 1500 0) rfl
  refine ⟨hlen1, fun F env garbage stack => ?_⟩
  exact (short_read_aborts_build env (fun _ => true) { tableOk := true, garbage := garbage }
    stack (oneFile truncatedFile) [CmdOpt.f "rec.wav"] (pcmHeader 8000 4096) truncatedFile 1
    rfl (by decide)
    (fun i hi => by
      have hi0 : i = 0 := by omega
      subst hi0
      rw [blockBytes_length_eq, truncatedFile_length]
      decide)
    (by rw [hlen1]; decide) (fun _ _ => rfl)).2 rfl (by rw [hhdr]) (by rw [hhdr]) rfl

/-- C13. A successful `obtainFftMagnitudeData` writes exactly `FFT_N / 2 + 1 = 513`
magnitudes, in ascending bin order, magnitude `i` being
`sqrt(re_i * re_i + im_i * im_i)` of output bin `i` (entries of the row from index 513
on are left as they were). For any ordering of the arithmetic in which the square of
a number is non-negative, the sum of two non-negative values is non-negative and the
square root of a non-negative value is non-negative (as in IEEE arithmetic, `num`
being "not NaN"), every magnitude of an FFT output made of numbers is non-negative. -/
theorem magnitudes_are_nonneg_sqrt_of_squares {F : Type} (env : FftEnv F)
    (samples : Nat → Byte) (nonneg num : F → Prop)
    (hmul : ∀ x, num x → nonneg (env.mul x x))
    (hadd : ∀ x y, nonneg x → nonneg y → nonneg (env.add x y))
    (hsqrt : ∀ x, nonneg x → nonneg (env.sqrt x))
    (hout : ∀ i, i < NUM_BINS →
      num (env.kiss_fftr ((samplesOf samples).map env.ofInt16) i).1 ∧
      num (env.kiss_fftr ((samplesOf samples).map env.ofInt16) i).2) :
    ∃ mags, obtainFftMagnitudeData env true samples = (0, some mags) ∧
      mags.length = FFT_N / 2 + 1 ∧ mags.length = 513 ∧
      (∀ i, i < 513 → mags[i]? = some (env.sqrt (env.add
        (env.mul (env.kiss_fftr ((samplesOf samples).map env.ofInt16) i).1
          (env.kiss_fftr ((samplesOf samples).map env.ofInt16) i).1)
        (env.mul (env.kiss_fftr ((samplesOf samples).map env.ofInt16) i).2
          (env.kiss_fftr ((samplesOf samples).map env.ofInt16) i).2)))) ∧
      (∀ (cell : Nat → Nat → F) (row c : Nat), 513 ≤ c →
        setRow cell row mags row c = cell row c) ∧
      (∀ x ∈ mags, nonneg x) := by
  have hlen : (spectrumOf env (samplesOf samples)).length = 513 := spectrumOf_length env _
  refine ⟨spectrumOf env (samplesOf samples), rfl, hlen, hlen, ?_, ?_, ?_⟩
  · intro i hi
    simp only [spectrumOf, magnitudesOf]
    rw [getElem?_map_range _ NUM_BINS i hi]
  · intro cell row c hc
    simp only [setRow, if_true]
    rw [List.getD_eq_default _ _ (by rw [hlen]; exact hc)]
  · intro x hx
    simp only [spectrumOf, magnitudesOf, List.mem_map, List.mem_range] at hx
    obtain ⟨i, hi, rfl⟩ := hx
    exact hsqrt _ (hadd _ _ (hmul _ (hout i hi).1) (hmul _ (hout i hi).2))

/-- C13 at a concrete input: the integer instance of the arithmetic with the usual
order (every integer is a number) and a buffer of zero bytes. -/
theorem magnitudes_are_nonneg_sqrt_of_squares_witness :
    ∃ mags, obtainFftMagnitudeData intEnv true (fun _ => 0) = (0, some mags) ∧
      mags.length = 513 ∧ ∀ x ∈ mags, 0 ≤ x := by
  obtain ⟨mags, h1, _, h3, _, _, h6⟩ :=
    magnitudes_are_nonneg_sqrt_of_squares intEnv (fun _ => 0) (fun x => 0 ≤ x)
      (fun _ => True) (fun x _ => mul_self_nonneg x) (fun x y hx hy => Int.add_nonneg hx hy)
      (fun x _ => Int.sqrt_nonneg x) (fun _ _ => ⟨trivial, trivial⟩)
  exact ⟨mags, h1, h3, h6⟩

/-- C14 (the code at failing inputs). Over matrices of non-negative numbers
`obtainAciValue` returns a non-negative number, `+∞` or NaN, and the last two occur:
with two blocks per temporal step (sample rate 500) the matrix of ones gives NaN,
with rows 0 = 0 and 1 = 1 (sample rate 700) the value is `+∞`, and the zero matrix
gives NaN. -/
theorem nonneg_matrix_can_give_nan_or_infinity :
    (∀ (A : Nat → Nat → ℚ) (h : WavHeader), (∀ r c, 0 ≤ A r c) → h.sampleRate ≠ 0 →
      ∃ v, obtainAciValue fltOps (fun r c => Flt.fin (A r c)) h = some v ∧
        (v = Flt.nan ∨ v = Flt.pinf ∨ ∃ x : ℚ, 0 ≤ x ∧ v = Flt.fin x)) ∧
    obtainAciValue fltOps (fun _ _ => Flt.fin 1) (pcmHeader 500 2500) = some Flt.nan ∧
    obtainAciValue fltOps (fun r _ => if r = 0 then Flt.fin 0 else Flt.fin 1)
      (pcmHeader 700 3500) = some Flt.pinf ∧
    obtainAciValue fltOps zeroMatrix (pcmHeader 8000 160000) = some Flt.nan := by
  refine ⟨fun A h hA hsr => obtainAciValue_nonnegOrNonFinite A hA h hsr, ?_, ?_, ?_⟩
  · exact obtainAciValue_nan_of_two_blocks _ (pcmHeader 500 2500) (by decide) (by decide)
      (by decide) (by decide)
  · rw [obtainAciValue_three_one fltOps _ (pcmHeader 700 3500) (by decide) (by decide)
      (by decide) (by decide)]
    refine congrArg some ?_
    unfold sumOver
    apply Flt.foldl_add_pinf
    · intro q _
      simp [fltOps, Flt.add, Flt.sub, Flt.neg, Flt.fabs, Flt.div]
    · right
      exact ⟨⟨0, rfl⟩, fun hnil => absurd (List.range_eq_nil.1 hnil) (by decide)⟩
  · exact (obtainAciValue_nan_of_zero_step zeroMatrix (pcmHeader 8000 160000) (by decide)
      (by decide) (by decide) 0 0 (by decide) (by decide) (fun _ _ _ => rfl)).2.2

/-- C15 (the code at the failing input). For the recording with 500 data bytes (the
file holds exactly the 44-byte header and 500 bytes) the bound
`(500 / 1024) - 1` wraps to 4294967295, the first read asks for 1024 bytes and gets
500, and `populateMagnitudeMatrix` returns -1 without a transform call. For
recordings of at least 1024 data bytes whose file holds exactly the announced bytes,
every read is satisfied and the build succeeds when the transform does. -/
theorem recording_below_one_block_fails_to_build :
    ((silentFile 8000 500).length = sizeofWavHeader + 500 ∧
      loopBound (pcmHeader 8000 500) = 4294967295 ∧
      (blockBytes (silentFile 8000 500) 0).length = 500) ∧
    (∀ (F : Type) (env : FftEnv F) (fftAlloc : Nat → Bool) (stack : Nat → Byte)
        (M : Matrix F),
      (populateMagnitudeMatrix env fftAlloc (oneFile (silentFile 8000 500)) recGlobals stack
        (pcmHeader 8000 500) M).rc = -1 ∧
      (populateMagnitudeMatrix env fftAlloc (oneFile (silentFile 8000 500)) recGlobals stack
        (pcmHeader 8000 500) M).calls = []) ∧
    (∀ (F : Type) (env : FftEnv F) (fftAlloc : Nat → Bool) (fs : FileSystem) (g : Globals)
        (stack : Nat → Byte) (h : WavHeader) (M : Matrix F) (file : List Byte),
      fs g.wavFilePath = some file → FFT_N ≤ h.subchunk2Size → h.subchunk2Size < 2 ^ 32 →
      file.length = sizeofWavHeader + h.subchunk2Size → (∀ i, fftAlloc i = true) →
      (populateMagnitudeMatrix env fftAlloc fs g stack h M).rc = 0 ∧
      (populateMagnitudeMatrix env fftAlloc fs g stack h M).calls.length =
        h.subchunk2Size / FFT_N - 1) := by
  have hb : loopBound (pcmHeader 8000 500) = 4294967295 := by decide
  have hlen0 : (blockBytes (silentFile 8000 500) 0).length = 500 := by
    rw [blockBytes_length_eq, silentFile_length]
    decide
  refine ⟨⟨silentFile_length 8000 500, hb, hlen0⟩, ?_, ?_⟩
  · intro F env fftAlloc stack M
    rw [populateMagnitudeMatrix_short_read env fftAlloc (oneFile (silentFile 8000 500))
      recGlobals stack (pcmHeader 8000 500) M (silentFile 8000 500) 0 rfl
      (by rw [hb]; decide) (fun i hi => absurd hi (Nat.not_lt_zero i))
      (by rw [hlen0]; decide) (fun i hi => absurd hi (Nat.not_lt_zero i))]
    exact ⟨rfl, rfl⟩
  · intro F env fftAlloc fs g stack h M file hf h1 h2 hlen halloc
    rw [populate_exact_file_success env fftAlloc fs g stack h M file hf h1 h2 hlen halloc]
    exact ⟨rfl, by simp⟩

/-- C16 (the code at the failing inputs). For the header with sample rate 100
(`B = 0`, one temporal step) the bound `numFftsInTemporalStep - 2` wraps to
4294967294: the innermost loop is not empty, it loads rows 0 up to 4294967294 of
bin 0, and over the matrix of ones `S` is 4294967294, not 0. For sample rate 300
(`B = 1`) the bound is 4294967295 and `S` is 4294967295. -/
theorem inner_loop_bound_wraps_for_low_sample_rates :
    (numFftsInTemporalStep (pcmHeader 100 500) = 0 ∧
      numTemporalStepsInRecording (pcmHeader 100 500) = 1 ∧
      (numFftsInTemporalStep (pcmHeader 100 500) + UINT_MOD - 2) % UINT_MOD = 4294967294) ∧
    (∃ l, cellReads (pcmHeader 100 500) = some l ∧ (0, 0) ∈ l ∧ (4294967294, 0) ∈ l) ∧
    (stepSums fltOps onesMatrix (pcmHeader 100 500) 0 0).2 = Flt.fin 4294967294 ∧
    (numFftsInTemporalStep (pcmHeader 300 1500) = 1 ∧
      numTemporalStepsInRecording (pcmHeader 300 1500) = 1) ∧
    (stepSums fltOps onesMatrix (pcmHeader 300 1500) 0 0).2 = Flt.fin 4294967295 := by
  have hb0 : (numFftsInTemporalStep (pcmHeader 100 500) + UINT_MOD - 2) % UINT_MOD =
      4294967294 := by decide
  have hb1 : (numFftsInTemporalStep (pcmHeader 300 1500) + UINT_MOD - 2) % UINT_MOD =
      4294967295 := by decide
  refine ⟨⟨by decide, by decide, hb0⟩, ?_, ?_, ⟨by decide, by decide⟩, ?_⟩
  · obtain ⟨l, hl, hmem⟩ := mem_cellReads (pcmHeader 100 500) (by decide)
    refine ⟨l, hl, ?_, ?_⟩
    · apply (hmem _).2
      refine ⟨0, 0, by decide, by decide, Or.inr ?_⟩
      rw [stepSums_first_step, hb0]
      dsimp only
      rw [mem_sumOver_trace]
      exact ⟨0, by decide, List.mem_singleton.2 rfl⟩
    · apply (hmem _).2
      refine ⟨0, 0, by decide, by decide, Or.inl ?_⟩
      rw [stepSums_first_step, hb0]
      dsimp only
      rw [mem_sumOver_trace]
      refine ⟨4294967293, by decide, ?_⟩
      show (4294967294, 0) ∈ [(4294967293, 0)] ++ [(4294967293 + 1, 0)]
      exact List.mem_append.2 (Or.inr (List.mem_singleton.2 rfl))
  · rw [stepSums_first_step, hb0]
    dsimp only
    rw [sumOver_ones]
    norm_num
  · rw [stepSums_first_step, hb1]
    dsimp only
    rw [sumOver_ones]
    norm_num

/-- C17 (the code at the failing input). For the recording with sample rate 700 and
3500 data bytes, `createMagnitudeMatrix` allocates rows 0, 1, 2; the successful build
writes rows 1 and 2 only, row 0 keeps the content `malloc` returned; and
`obtainAciValue` loads rows 0 and 1, among them cell (0, 0) of the unwritten row. -/
theorem reducer_reads_unwritten_row_zero :
    (∀ (F : Type) (env : FftEnv F) (garbage : Nat → Nat → F) (stack : Nat → Byte),
      createMagnitudeMatrix { tableOk := true, garbage := garbage } (pcmHeader 700 3500) =
        some { numRows := 3, cell := garbage } ∧
      (populateMagnitudeMatrix env (fun _ => true) (oneFile (silentFile 700 3500)) recGlobals
        stack (pcmHeader 700 3500) { numRows := 3, cell := garbage }).rc = 0 ∧
      (populateMagnitudeMatrix env (fun _ => true) (oneFile (silentFile 700 3500)) recGlobals
        stack (pcmHeader 700 3500) { numRows := 3, cell := garbage }).calls.map Prod.fst =
          [1, 2] ∧
      (∀ c, (populateMagnitudeMatrix env (fun _ => true) (oneFile (silentFile 700 3500))
        recGlobals stack (pcmHeader 700 3500) { numRows := 3, cell := garbage }).cell 0 c =
          garbage 0 c)) ∧
    (∃ l, cellReads (pcmHeader 700 3500) = some l ∧ (0, 0) ∈ l ∧
      (∀ x ∈ l, x.1 = 0 ∨ x.1 = 1)) ∧
    (0 ∉ [1, 2]) := by
  have hb : loopBound (pcmHeader 700 3500) = 2 := by decide
  have hB : numFftsInTemporalStep (pcmHeader 700 3500) = 3 := by decide
  have hN : numTemporalStepsInRecording (pcmHeader 700 3500) = 1 := by decide
  refine ⟨?_, ?_, by decide⟩
  · intro F env garbage stack
    rw [populate_silentFile_any env recGlobals stack _ 700 3500 (by rw [hb]; decide), hb]
    dsimp only
    refine ⟨rfl, rfl, rfl, fun c => ?_⟩
    exact cellAfter_untouched env (silentFile 700 3500) stack garbage 2 0 c (Or.inl rfl)
  · obtain ⟨l, hl, hmem⟩ := mem_cellReads (pcmHeader 700 3500) (by decide)
    have hstep : ∀ m q, m < numTemporalStepsInRecording (pcmHeader 700 3500) →
        stepSums traceOps (fun r c => [(r, c)]) (pcmHeader 700 3500) m q =
          (specD traceOps (fun r c => [(r, c)]) 3 m q,
            specS traceOps (fun r c => [(r, c)]) 3 m q) := by
      intro m q hm
      have := stepSums_eq traceOps (fun r c => [(r, c)]) (pcmHeader 700 3500) (by decide)
        (by rw [hB]; decide) m q hm
      rw [hB] at this
      exact this
    refine ⟨l, hl, ?_, ?_⟩
    · apply (hmem _).2
      refine ⟨0, 0, by decide, by rw [hN]; decide, Or.inr ?_⟩
      rw [hstep 0 0 (by rw [hN]; decide)]
      dsimp only
      rw [mem_specS_trace]
      exact ⟨0, by decide, rfl⟩
    · intro x hx
      obtain ⟨q, m, _, hm, hx⟩ := (hmem x).1 hx
      rw [hstep m q hm] at hx
      rw [hN] at hm
      have hm0 : m = 0 := by omega
      subst hm0
      rcases hx with hx | hx
      · obtain ⟨k, hk, hx | hx⟩ := (mem_specD_trace _ 0 q x).1 hx
        · left; rw [hx]; simp only; omega
        · right; rw [hx]; simp only; omega
      · obtain ⟨k, hk, hx⟩ := (mem_specS_trace _ 0 q x).1 hx
        left; rw [hx]; simp only; omega

/-- C18. Reducer index safety: for every header with `sampleRate > 0`,
`5 * sampleRate < 2 ^ 32` and `B = floor(5 * sampleRate / 1024) ≥ 2`, every cell
`obtainAciValue` loads has a row index strictly below `floor(dataByteLength / 1024)`,
the number of rows `createMagnitudeMatrix` allocates, and a column index of at most
512; no row index exceeds `numTemporalSteps * B - 2`, and that index is loaded when
there is a temporal step and `B ≥ 3`. -/
theorem reducer_reads_within_allocated_rows (h : WavHeader) (hsr : 0 < h.sampleRate)
    (hw : 5 * h.sampleRate < 2 ^ 32) (hL : h.subchunk2Size < 2 ^ 32)
    (hB : 2 ≤ 5 * h.sampleRate / 1024) :
    ∃ l, cellReads h = some l ∧
      (∀ x ∈ l, x.1 < h.subchunk2Size / 1024 ∧ x.2 ≤ 512) ∧
      (∀ x ∈ l, x.1 + 2 ≤
        (h.subchunk2Size / h.sampleRate / 5) * (5 * h.sampleRate / 1024)) ∧
      (0 < h.subchunk2Size / h.sampleRate / 5 → 3 ≤ 5 * h.sampleRate / 1024 →
        ((h.subchunk2Size / h.sampleRate / 5) * (5 * h.sampleRate / 1024) - 2, 0) ∈ l) ∧
      (∀ (F : Type) (heap : Heap F) (M : Matrix F), createMagnitudeMatrix heap h = some M →
        M.numRows = h.subchunk2Size / 1024) := by
  have hcode : numFftsInTemporalStep h = 5 * h.sampleRate / 1024 := by
    unfold numFftsInTemporalStep UINT_MOD TEMPORAL_STEP
    rw [Nat.mod_eq_of_lt hw]
    rfl
  have hN : numTemporalStepsInRecording h = h.subchunk2Size / h.sampleRate / 5 := rfl
  have hB' : 2 ≤ numFftsInTemporalStep h := by rw [hcode]; exact hB
  obtain ⟨l, hl, hmem⟩ := mem_cellReads h (by omega)
  have hrow : ∀ x ∈ l, ∃ m, m < numTemporalStepsInRecording h ∧
      x.1 + 2 ≤ (m + 1) * numFftsInTemporalStep h ∧ x.2 < NUM_BINS := by
    intro x hx
    obtain ⟨q, m, hq, hm, hx⟩ := (hmem x).1 hx
    rw [stepSums_eq traceOps _ h hL hB' m q hm] at hx
    have hsucc : (m + 1) * numFftsInTemporalStep h =
        m * numFftsInTemporalStep h + numFftsInTemporalStep h := Nat.succ_mul _ _
    refine ⟨m, hm, ?_⟩
    rcases hx with hx | hx
    · obtain ⟨k, hk, hx | hx⟩ := (mem_specD_trace _ m q x).1 hx
      · rw [hx]; exact ⟨by simp only; omega, hq⟩
      · rw [hx]; exact ⟨by simp only; omega, hq⟩
    · obtain ⟨k, hk, hx⟩ := (mem_specS_trace _ m q x).1 hx
      rw [hx]; exact ⟨by simp only; omega, hq⟩
  refine ⟨l, hl, ?_, ?_, ?_, ?_⟩
  · intro x hx
    obtain ⟨m, hm, h1, h2⟩ := hrow x hx
    have h3 := step_rows_le h m hm
    have h4 : h.subchunk2Size / FFT_N = h.subchunk2Size / 1024 := rfl
    have h5 : NUM_BINS = 513 := rfl
    omega
  · intro x hx
    obtain ⟨m, hm, h1, _⟩ := hrow x hx
    have h3 : (m + 1) * numFftsInTemporalStep h ≤
        numTemporalStepsInRecording h * numFftsInTemporalStep h :=
      Nat.mul_le_mul_right _ hm
    rw [hcode, hN] at h3
    rw [hcode] at h1
    omega
  · intro hN0 hB3
    rw [← hN] at hN0
    rw [← hcode] at hB3
    rw [← hcode, ← hN]
    obtain ⟨n, hn⟩ : ∃ n, numTemporalStepsInRecording h = n + 1 := ⟨_, (Nat.succ_pred_eq_of_pos hN0).symm⟩
    apply (hmem _).2
    refine ⟨0, n, by decide, by omega, Or.inl ?_⟩
    rw [stepSums_eq traceOps _ h hL hB' n 0 (by omega)]
    apply (mem_specD_trace _ n 0 _).2
    refine ⟨numFftsInTemporalStep h - 3, by omega, Or.inr ?_⟩
    have hsucc : (n + 1) * numFftsInTemporalStep h =
        n * numFftsInTemporalStep h + numFftsInTemporalStep h := Nat.succ_mul _ _
    rw [hn, hsucc]
    congr 1
    omega
  · intro F heap M hM
    unfold createMagnitudeMatrix at hM
    split_ifs at hM
    have hM' := Option.some.inj hM
    rw [← hM']
    show h.subchunk2Size / FFT_N % UINT_MOD = h.subchunk2Size / 1024
    unfold FFT_N UINT_MOD
    omega

/-- C18 at a concrete input: 8000 Hz and 160000 data bytes (39 blocks per step, 4
steps, 156 rows); every row loaded is below 156 and row 154 is loaded. -/
theorem reducer_reads_within_allocated_rows_witness :
    ∃ l, cellReads (pcmHeader 8000 160000) = some l ∧
      (∀ x ∈ l, x.1 < 156 ∧ x.2 ≤ 512) ∧ (154, 0) ∈ l := by
  obtain ⟨l, h1, h2, _, h4, _⟩ := reducer_reads_within_allocated_rows (pcmHeader 8000 160000)
    (by decide) (by decide) (by decide) (by decide)
  exact ⟨l, h1, h2, h4 (by decide) (by decide)⟩

/-- C19 (the code at the failing inputs). For the header with 500 data bytes
`createMagnitudeMatrix` allocates 0 rows, yet the loop bound wraps to 4294967295 and
the loop body runs: `memset` clears the start of row 1 before the first read (the
counter ends at 1, not 0), and when 1500 data bytes follow the header the transform
result of the first block is stored in row 1 as well. For recordings of at least
1024 data bytes that build successfully, every row written is below
`floor(dataByteLength / 1024)`. -/
theorem builder_writes_row_one_of_empty_matrix :
    (∀ (F : Type) (env : FftEnv F) (fftAlloc : Nat → Bool) (garbage : Nat → Nat → F)
        (stack : Nat → Byte),
      createMagnitudeMatrix { tableOk := true, garbage := garbage } (pcmHeader 8000 500) =
        some { numRows := 0, cell := garbage } ∧
      (populateMagnitudeMatrix env fftAlloc (oneFile (silentFile 8000 500)) recGlobals stack
        (pcmHeader 8000 500) { numRows := 0, cell := garbage }).cell 1 0 = env.zero ∧
      (populateLoop env fftAlloc (pcmHeader 8000 500) (silentFile 8000 500) UINT_MOD
        ⟨0, sizeofWavHeader, stack, garbage, 0, []⟩).numFfts = 1) ∧
    (∀ (F : Type) (env : FftEnv F) (garbage : Nat → Nat → F) (stack : Nat → Byte),
      (obtainWavHeader (oneFile understatedFile) recGlobals).wavHeader =
        some (pcmHeader 8000 500) ∧
      (populateMagnitudeMatrix env (fun _ => true) (oneFile understatedFile) recGlobals stack
        (pcmHeader 8000 500) { numRows := 0, cell := garbage }).calls.map Prod.fst = [1]) ∧
    (∀ (F : Type) (env : FftEnv F) (fftAlloc : Nat → Bool) (fs : FileSystem) (g : Globals)
        (stack : Nat → Byte) (h : WavHeader) (M : Matrix F) (file : List Byte),
      fs g.wavFilePath = some file → FFT_N ≤ h.subchunk2Size → h.subchunk2Size < 2 ^ 32 →
      file.length = sizeofWavHeader + h.subchunk2Size → (∀ i, fftAlloc i = true) →
      ∀ row ∈ (populateMagnitudeMatrix env fftAlloc fs g stack h M).calls.map Prod.fst,
        row < h.subchunk2Size / 1024) := by
  have hb : loopBound (pcmHeader 8000 500) = 4294967295 := by decide
  have hlen0 : (blockBytes (silentFile 8000 500) 0).length ≠ FFT_N := by
    rw [blockBytes_length_eq, silentFile_length]
    decide
  refine ⟨?_, ?_, ?_⟩
  · intro F env fftAlloc garbage stack
    refine ⟨rfl, ?_, ?_⟩
    · rw [populateMagnitudeMatrix_short_read env fftAlloc (oneFile (silentFile 8000 500))
        recGlobals stack (pcmHeader 8000 500) _ (silentFile 8000 500) 0 rfl
        (by rw [hb]; decide) (fun i hi => absurd hi (Nat.not_lt_zero i)) hlen0
        (fun i hi => absurd hi (Nat.not_lt_zero i))]
      simp [memsetRow, NUM_BINS, FFT_N]
    · have h0 : popAfter env (silentFile 8000 500) stack garbage 0 =
          ⟨0, sizeofWavHeader, stack, garbage, 0, []⟩ := by
        simp [popAfter, cellAfter]
      rw [← h0, populateLoop_first_short_read env fftAlloc (pcmHeader 8000 500)
        (silentFile 8000 500) stack garbage 0 (by rw [hb]; decide)
        (fun i hi => absurd hi (Nat.not_lt_zero i)) hlen0
        (fun i hi => absurd hi (Nat.not_lt_zero i)) UINT_MOD (by decide)]
  · intro F env garbage stack
    refine ⟨?_, ?_⟩
    · rw [obtainWavHeader_encoded (pcmHeader 8000 500)
        (pcmHeader_wf 8000 500 (by decide) (by decide)) rfl (oneFile understatedFile)
        recGlobals (List.replicate 1500 0) rfl]
    · rw [populateMagnitudeMatrix_short_read env (fun _ => true) (oneFile understatedFile)
        recGlobals stack (pcmHeader 8000 500) _ understatedFile 1 rfl
        (by rw [hb]; decide)
        (fun i hi => by
          have hi0 : i = 0 := by omega
          subst hi0
          rw [blockBytes_length_eq, understatedFile_length]
          decide)
        (by rw [blockBytes_length_eq, understatedFile_length]; decide) (fun _ _ => rfl)]
      rfl
  · intro F env fftAlloc fs g stack h M file hf h1 h2 hlen halloc row hrow
    rw [populate_exact_file_success env fftAlloc fs g stack h M file hf h1 h2 hlen halloc]
      at hrow
    simp only [List.map_map, List.mem_map, List.mem_range, Function.comp] at hrow
    obtain ⟨i, hi, rfl⟩ := hrow
    have : h.subchunk2Size / FFT_N = h.subchunk2Size / 1024 := rfl
    omega

end ACI
